import Mathlib

/-!
Verification development for `scripts/generate_feed.py` of the
`titck-duyurular` repository: a scraper that extracts announcement links
from a listing page, extracts title/date/content from each announcement
page, and assembles an RSS 2.0 feed.

The Python source is shallowly embedded: pure string manipulations become
Lean functions on `String`/`List Char`; the HTML soup produced by
BeautifulSoup is modelled as an explicit node tree; the fallible steps
(date parsing) return `Option`; the clock is passed explicitly as a
parameter wherever the Python code calls `datetime.now`.
-/

set_option maxRecDepth 10000

/-- Decimal digit character for `k % 10` (code point `48 + k % 10`). -/
def digitChar10 (k : Nat) : Char := Char.ofNat (48 + k % 10)

/-- Fuel-driven digit rendering; with fuel `≥ n` it renders the full
decimal expansion of `n`, most significant digit first. -/
def natToCharsAux : Nat → Nat → List Char
  | 0, n => [digitChar10 n]
  | fuel + 1, n =>
    if n < 10 then [digitChar10 n]
    else natToCharsAux fuel (n / 10) ++ [digitChar10 (n % 10)]

/-- Decimal rendering of a natural number as characters, most significant
digit first (the rendering used by Python `%d`). -/
def natToChars (n : Nat) : List Char := natToCharsAux n n

/-- Zero-padded decimal rendering to width `w`, as produced by Python
`%0wd` (wider numbers are rendered in full). -/
def padNum (w : Nat) (n : Nat) : List Char :=
  let ds := natToChars n
  List.replicate (w - ds.length) '0' ++ ds

/-- Value of a list of decimal digit characters (most significant first),
accumulating onto `acc`. -/
def parseCharsFrom : Nat → List Char → Nat
  | acc, [] => acc
  | acc, c :: t => parseCharsFrom (acc * 10 + (c.toNat - 48)) t

/-- Value of a list of decimal digit characters. -/
def parseChars (cs : List Char) : Nat := parseCharsFrom 0 cs

/-- Substring test on character lists (Python `pat in hay`). -/
def isInfixList (pat : List Char) : List Char → Bool
  | [] => pat.isEmpty
  | c :: t => pat.isPrefixOf (c :: t) || isInfixList pat t

/-- Substring test on strings (Python `pat in hay`). -/
def containsSub (hay pat : String) : Bool := isInfixList pat.data hay.data

/-- Split a character list at every occurrence of `sep`
(Python `s.split(sep)` semantics: `"".split(".") = [""]`). -/
def splitOnChar (sep : Char) : List Char → List (List Char)
  | [] => [[]]
  | c :: t =>
    if c = sep then [] :: splitOnChar sep t
    else
      match splitOnChar sep t with
      | h :: r => (c :: h) :: r
      | [] => [[c]]

/-- Python `str.strip()` (modelled for ASCII whitespace). -/
def trimList (l : List Char) : List Char :=
  ((l.dropWhile Char.isWhitespace).reverse.dropWhile Char.isWhitespace).reverse

/-- Python `str.strip()` on strings. -/
def pyStrip (s : String) : String := ⟨trimList s.data⟩

/-- Python `str.lower()` (modelled for ASCII letters). -/
def pyLower (s : String) : String := ⟨s.data.map Char.toLower⟩

/-- A naive `datetime` value as used by the script: date plus time-of-day,
with an optional UTC offset in minutes (`none` models a naive datetime). -/
structure PyDateTime where
  year : Nat
  month : Nat
  day : Nat
  hour : Nat
  minute : Nat
  second : Nat
  tz : Option Int
deriving DecidableEq, Repr

/-- Weekday names used by `email.utils` (`Monday = 0`). -/
def dayNamesTable : List String :=
  ["Mon", "Tue", "Wed", "Thu", "Fri", "Sat", "Sun"]

/-- Month names used by `email.utils` (index `month - 1`). -/
def monthNamesTable : List String :=
  ["Jan", "Feb", "Mar", "Apr", "May", "Jun",
   "Jul", "Aug", "Sep", "Oct", "Nov", "Dec"]

/-- Cumulative day count before each month in a non-leap year. -/
def monthOffsetTable : List Nat :=
  [0, 31, 59, 90, 120, 151, 181, 212, 243, 273, 304, 334]

/-- Gregorian leap-year test (as in Python `calendar.isleap`). -/
def isLeapYear (y : Nat) : Bool :=
  (y % 4 = 0 && y % 100 ≠ 0) || y % 400 = 0

/-- Number of days in a month (Python `calendar.monthrange` semantics,
defaulting to 31 for out-of-range months; callers validate the month). -/
def daysInMonth (y m : Nat) : Nat :=
  if m = 2 then (if isLeapYear y then 29 else 28)
  else if m = 4 || m = 6 || m = 9 || m = 11 then 30
  else 31

/-- Day of week with `Monday = 0` (Python `datetime.weekday`), computed by
Rata Die day counting for years `≥ 1`; always `< 7` thanks to the final
`% 7`. -/
def weekdayOf (y m d : Nat) : Nat :=
  let py := y - 1
  let leapAdd : Nat := if 2 < m && isLeapYear y then 1 else 0
  let doy := monthOffsetTable.getD (m - 1) 0 + leapAdd + d
  -- Rata Die for 0001-01-01 is 1, a Monday.
  (365 * py + py / 4 + py / 100 * 6 + py / 400 + doy + 6) % 7

/-- Timezone suffix of `email.utils.format_datetime`: `-0000` for a naive
datetime, signed `HHMM` offset otherwise. -/
def tzChars : Option Int → List Char
  | none => ['-', '0', '0', '0', '0']
  | some off =>
    let sign : Char := if off < 0 then '-' else '+'
    let a := off.natAbs
    sign :: (padNum 2 (a / 60) ++ padNum 2 (a % 60))

/-- Character-list rendering of `email.utils.format_datetime`:
`Www, DD Mmm YYYY HH:MM:SS ZZZZZ`. -/
def formatDatetimeChars (dt : PyDateTime) : List Char :=
  (dayNamesTable.getD (weekdayOf dt.year dt.month dt.day) "Mon").data
    ++ [',', ' ']
    ++ padNum 2 dt.day ++ [' ']
    ++ (monthNamesTable.getD (dt.month - 1) "Jan").data ++ [' ']
    ++ padNum 4 dt.year ++ [' ']
    ++ padNum 2 dt.hour ++ [':'] ++ padNum 2 dt.minute ++ [':']
    ++ padNum 2 dt.second ++ [' ']
    ++ tzChars dt.tz

/-- `email.utils.format_datetime`, the RFC-2822 rendering used for
`pubDate` and `lastBuildDate`. -/
def formatDatetime (dt : PyDateTime) : String := ⟨formatDatetimeChars dt⟩

theorem formatDatetime_example :
    formatDatetime ⟨2025, 12, 30, 0, 0, 0, none⟩
      = "Tue, 30 Dec 2025 00:00:00 -0000" := by decide

/-- Backtracking matcher for `\d{1,2}` followed by continuation `k`,
greedily preferring two digits (Python `re` semantics). Returns the full
matched character run. -/
def matchNum12 (k : List Char → Option (List Char)) : List Char → Option (List Char)
  | [] => none
  | [a] => if a.isDigit then (k []).map (a :: ·) else none
  | a :: b :: rest =>
    if a.isDigit then
      if b.isDigit then
        match k rest with
        | some tail => some (a :: b :: tail)
        | none => (k (b :: rest)).map (a :: ·)
      else (k (b :: rest)).map (a :: ·)
    else none

/-- Matcher for a literal `.` followed by continuation `k`. -/
def matchDot (k : List Char → Option (List Char)) : List Char → Option (List Char)
  | '.' :: rest => (k rest).map ('.' :: ·)
  | _ => none

/-- Matcher for `\d{4}` (exactly four digits; trailing input ignored). -/
def matchY4 : List Char → Option (List Char)
  | y1 :: y2 :: y3 :: y4 :: _ =>
    if y1.isDigit && y2.isDigit && y3.isDigit && y4.isDigit then
      some [y1, y2, y3, y4]
    else none
  | _ => none

/-- Match of `re` pattern `\d{1,2}\.\d{1,2}\.\d{4}` anchored at the head
of the input, with full backtracking. -/
def dmyMatchAt : List Char → Option (List Char) :=
  matchNum12 (matchDot (matchNum12 (matchDot matchY4)))

/-- Leftmost match of `\d{1,2}\.\d{1,2}\.\d{4}`
(`re.search(r"(\d{1,2}\.\d{1,2}\.\d{4})", s)` of the source). -/
def dmySearchList : List Char → Option (List Char)
  | [] => none
  | c :: t =>
    match dmyMatchAt (c :: t) with
    | some m => some m
    | none => dmySearchList t

/-- String form of the leftmost `D.M.YYYY` match. -/
def dmySearch (s : String) : Option String :=
  (dmySearchList s.data).map (fun m => ⟨m⟩)

/-- `datetime.strptime(dt_str, "%d.%m.%Y")`: parses `day.month.year` and
validates it as a real calendar date, `none` modelling the `ValueError`
that the source catches. -/
def strptimeDMY (s : String) : Option PyDateTime :=
  match splitOnChar '.' s.data with
  | [ds, ms, ys] =>
    if ds.all Char.isDigit && ms.all Char.isDigit && ys.all Char.isDigit
        && 1 ≤ ds.length && ds.length ≤ 2 && 1 ≤ ms.length && ms.length ≤ 2
        && ys.length = 4 then
      if 1 ≤ parseChars ys && 1 ≤ parseChars ms && parseChars ms ≤ 12
          && 1 ≤ parseChars ds
          && parseChars ds ≤ daysInMonth (parseChars ys) (parseChars ms) then
        some ⟨parseChars ys, parseChars ms, parseChars ds, 0, 0, 0, none⟩
      else none
    else none
  | _ => none

/-- Lines 166-181 of `extract_from_announcement`: turn raw date text into
an RFC-2822 `pubDate`, with the general day-first parser
(`dateutil.parser.parse(_, dayfirst=True)`) passed in as `fallbackParse`;
every failure yields the empty string. -/
def normalizePubdate (fallbackParse : String → Option PyDateTime) (pubdate : String) : String :=
  if pubdate = "" then ""
  else
    match dmySearch pubdate with
    | some m =>
      match strptimeDMY m with
      | some dt => formatDatetime dt
      | none => ""
    | none =>
      match fallbackParse pubdate with
      | some dt => formatDatetime dt
      | none => ""

/-- Consume exactly `k` decimal digits and return their value. -/
def takeDigitsN (k : Nat) (cs : List Char) : Option (Nat × List Char) :=
  if (cs.take k).length = k && (cs.take k).all Char.isDigit then
    some (parseChars (cs.take k), cs.drop k)
  else none

/-- Consume one expected character. -/
def expectChar (c : Char) : List Char → Option (List Char)
  | x :: t => if x = c then some t else none
  | [] => none

/-- Consume an RFC-2822 weekday prefix `Www, `. -/
def parseDayHead : List Char → Option (List Char)
  | a :: b :: c :: ',' :: ' ' :: rest =>
    if a.isAlpha && b.isAlpha && c.isAlpha then some rest else none
  | _ => none

/-- Consume a three-letter English month name, returning the month
number `1..12`. -/
def parseMonthName : List Char → Option (Nat × List Char)
  | m1 :: m2 :: m3 :: rest =>
    if monthNamesTable.indexOf ⟨[m1, m2, m3]⟩ < 12 then
      some (monthNamesTable.indexOf ⟨[m1, m2, m3]⟩ + 1, rest)
    else none
  | _ => none

/-- Boolean zone-offset sanity check (< 24 hours in magnitude). -/
def tzOkB : Option Int → Bool
  | none => true
  | some off => off.natAbs < 1440

/-- Consume a trailing RFC-2822 zone: `-0000` yields a naive datetime
(`none`), a signed `HHMM` offset yields that offset in minutes. -/
def parseTz : List Char → Option (Option Int)
  | [] => none
  | sign :: rest =>
    match takeDigitsN 2 rest with
    | none => none
    | some (hh, r1) =>
      match takeDigitsN 2 r1 with
      | none => none
      | some (mm, r2) =>
        if r2 = [] && hh < 24 && mm < 60 then
          let off := hh * 60 + mm
          if sign = '+' then some (some (off : Int))
          else if sign = '-' then some (if off = 0 then none else some (-(off : Int)))
          else none
        else none

/-- Parse of a full RFC-2822 timestamp `Www, DD Mmm YYYY HH:MM:SS ZZZZZ`
back into a datetime, validating calendar and clock ranges. -/
def rfc2822Parse (cs : List Char) : Option PyDateTime :=
  match parseDayHead cs with
  | none => none
  | some r0 =>
  match takeDigitsN 2 r0 with
  | none => none
  | some (d, r1) =>
  match expectChar ' ' r1 with
  | none => none
  | some r2 =>
  match parseMonthName r2 with
  | none => none
  | some (mo, r3) =>
  match expectChar ' ' r3 with
  | none => none
  | some r4 =>
  match takeDigitsN 4 r4 with
  | none => none
  | some (y, r5) =>
  match expectChar ' ' r5 with
  | none => none
  | some r6 =>
  match takeDigitsN 2 r6 with
  | none => none
  | some (h, r7) =>
  match expectChar ':' r7 with
  | none => none
  | some r8 =>
  match takeDigitsN 2 r8 with
  | none => none
  | some (mi, r9) =>
  match expectChar ':' r9 with
  | none => none
  | some r10 =>
  match takeDigitsN 2 r10 with
  | none => none
  | some (sec, r11) =>
  match expectChar ' ' r11 with
  | none => none
  | some r12 =>
  match parseTz r12 with
  | none => none
  | some tz =>
    if 1 ≤ y ∧ y ≤ 9999 ∧ 1 ≤ mo ∧ mo ≤ 12 ∧ 1 ≤ d ∧ d ≤ daysInMonth y mo
        ∧ h < 24 ∧ mi < 60 ∧ sec < 60 ∧ tzOkB tz = true then
      some ⟨y, mo, d, h, mi, sec, tz⟩
    else none

/-- Modelled from the spec: the general day-first parser
(`dateutil.parser.parse(text, dayfirst=True)`), whose source is not part
of this repository. Following the spec's "attempt a general day-first
date parse of the full text" and "Date Normalizer is idempotent on its
own RFC-2822 output", it accepts the RFC-2822 timestamps the normalizer
itself emits, plus simple `D/M/YYYY` day-first forms; anything else
fails (`none`, modelling the caught exception). -/
def generalDayfirstParse (s : String) : Option PyDateTime :=
  match rfc2822Parse s.data with
  | some dt => some dt
  | none =>
    match splitOnChar '/' s.data with
    | [ds, ms, ys] =>
      if ds.all Char.isDigit && ms.all Char.isDigit && ys.all Char.isDigit
          && 1 ≤ ds.length && ds.length ≤ 2 && 1 ≤ ms.length && ms.length ≤ 2
          && ys.length = 4 then
        if 1 ≤ parseChars ys && 1 ≤ parseChars ms && parseChars ms ≤ 12
            && 1 ≤ parseChars ds
            && parseChars ds ≤ daysInMonth (parseChars ys) (parseChars ms) then
          some ⟨parseChars ys, parseChars ms, parseChars ds, 0, 0, 0, none⟩
        else none
      else none
    | _ => none

/-- Range validity of a datetime as produced by the script's two parsing
paths: a real calendar date with in-range clock fields and a sane zone
offset. -/
def ValidDT (dt : PyDateTime) : Prop :=
  1 ≤ dt.year ∧ dt.year ≤ 9999 ∧ 1 ≤ dt.month ∧ dt.month ≤ 12 ∧
  1 ≤ dt.day ∧ dt.day ≤ daysInMonth dt.year dt.month ∧
  dt.hour < 24 ∧ dt.minute < 60 ∧ dt.second < 60 ∧ tzOkB dt.tz = true

theorem normalizePubdate_example :
    normalizePubdate (fun _ => none) "30.12.2025 - Denetim Hizmetleri"
      = "Tue, 30 Dec 2025 00:00:00 -0000" := by decide

/-- XML-illegal control character per the source's regex
`[\x00-\x08\x0b\x0c\x0e-\x1f]`. -/
def isIllegalCtrl (c : Char) : Bool :=
  c.toNat ≤ 0x8 || c.toNat = 0xB || c.toNat = 0xC || (0xE ≤ c.toNat && c.toNat ≤ 0x1F)

/-- `clean_xml_string`: strips the XML-illegal control characters
(`re.sub` with the character class above). -/
def clean_xml_string (s : String) : String :=
  if s = "" then "" else ⟨s.data.filter (fun c => !(isIllegalCtrl c))⟩

/-- HTML document tree as produced by BeautifulSoup's parse: elements
with a tag name, raw attribute list and children, and text nodes holding
already-entity-decoded text. The soup object itself is the root node. -/
inductive HNode where
  | elem (tag : String) (attrs : List (String × String)) (children : List HNode)
  | text (s : String)
deriving Repr

/-- Children of a node. -/
def childrenOf : HNode → List HNode
  | .elem _ _ cs => cs
  | .text _ => []

/-- Attribute lookup (`tag.get(key)`). -/
def attrOf (n : HNode) (key : String) : Option String :=
  match n with
  | .elem _ attrs _ => (attrs.find? (fun p => p.1 == key)).map (·.2)
  | .text _ => none

mutual
/-- All text fragments below a node, in document order
(BeautifulSoup `strings`). -/
def nodeStrings : HNode → List String
  | .elem _ _ cs => nodesStrings cs
  | .text s => [s]
/-- Text fragments of a node list, in order. -/
def nodesStrings : List HNode → List String
  | [] => []
  | c :: t => nodeStrings c ++ nodesStrings t
end

/-- Join a list of strings with a separator (Python `sep.join`). -/
def joinSep (sep : String) : List String → String
  | [] => ""
  | [x] => x
  | x :: y :: t => x ++ sep ++ joinSep sep (y :: t)

/-- `tag.get_text(sep, strip)`: with `strip` each fragment is stripped
and whitespace-only fragments are skipped before joining. -/
def getTextWith (sep : String) (strip : Bool) (n : HNode) : String :=
  let ss := nodeStrings n
  let ss := if strip then (ss.map pyStrip).filter (fun s => s != "") else ss
  joinSep sep ss

/-- `tag.get_text(strip=True)` (empty separator). -/
def getTextStrip (n : HNode) : String := getTextWith "" true n

mutual
/-- Proper descendants of a node paired with their ancestor chain
(outermost first, the node's parent last), in document pre-order. -/
def nodeDescs (anc : List HNode) : HNode → List (List HNode × HNode)
  | .elem tg a cs => listDescs (anc ++ [HNode.elem tg a cs]) cs
  | .text _ => []
/-- Descendant enumeration for a sibling list. -/
def listDescs (anc : List HNode) : List HNode → List (List HNode × HNode)
  | [] => []
  | c :: t => (anc, c) :: (nodeDescs anc c ++ listDescs anc t)
end

/-- Whitespace-separated tokens of a string (token list of an HTML
`class` attribute). -/
def wsTokensAux : List Char → List Char → List (List Char)
  | [], acc => if acc.isEmpty then [] else [acc.reverse]
  | c :: t, acc =>
    if c.isWhitespace then
      if acc.isEmpty then wsTokensAux t [] else acc.reverse :: wsTokensAux t []
    else wsTokensAux t (c :: acc)

/-- Class tokens of a node. -/
def classTokens (n : HNode) : List String :=
  match attrOf n "class" with
  | some v => (wsTokensAux v.data []).map (fun l => (⟨l⟩ : String))
  | none => []

/-- A simple CSS selector: optional tag name, `.class` and `#id` parts
(the only forms the source's selectors use). -/
structure SimpleSel where
  tag : Option String
  cls : Option String
  idAttr : Option String

/-- Match of a simple selector against one node. -/
def matchesSimple (sel : SimpleSel) (n : HNode) : Bool :=
  match n with
  | .text _ => false
  | .elem tg _ _ =>
    (match sel.tag with | some t => t == tg | none => true) &&
    (match sel.cls with | some c => (classTokens n).contains c | none => true) &&
    (match sel.idAttr with | some i => attrOf n "id" == some i | none => true)

/-- Ordered (subsequence) match of a selector list against an ancestor
chain, outermost first — the CSS descendant combinator. -/
def ancChainMatches : List SimpleSel → List HNode → Bool
  | [], _ => true
  | _ :: _, [] => false
  | s :: ss, a :: rest =>
    if matchesSimple s a then ancChainMatches ss rest
    else ancChainMatches (s :: ss) rest

/-- Match of a descendant-combinator selector chain: the node matches the
last simple selector and its ancestors match the earlier ones in order. -/
def matchesChain (sels : List SimpleSel) (anc : List HNode) (n : HNode) : Bool :=
  match sels.getLast? with
  | none => false
  | some lastSel => matchesSimple lastSel n && ancChainMatches sels.dropLast anc

/-- `soup.select_one(...)`: first descendant in document order matching
the selector chain. -/
def selectOne (root : HNode) (sels : List SimpleSel) : Option HNode :=
  ((nodeDescs [] root).find? (fun p => matchesChain sels p.1 p.2)).map (·.2)

/-- `soup.find(tag)`: first descendant element with the given tag. -/
def findTag (root : HNode) (tg : String) : Option HNode :=
  ((nodeDescs [] root).find? (fun p =>
    match p.2 with
    | .elem t _ _ => t == tg
    | .text _ => false)).map (·.2)

mutual
/-- BeautifulSoup `.string`: descend through sole children; a sole text
child yields its text, anything else `none`. -/
def tagString : HNode → Option String
  | .text s => some s
  | .elem _ _ cs => soleChildString cs
/-- `.string` helper over a child list. -/
def soleChildString : List HNode → Option String
  | [c] => tagString c
  | _ => none
end

/-- Keywords of the source's date regex `(tarih|date|posted|time)`
(case-insensitive search). -/
def dateKeywords : List String := ["tarih", "date", "posted", "time"]

/-- Case-insensitive search of the date-keyword regex in an attribute
value (`re.compile(r"(tarih|date|posted|time)", re.I).search(v)`). -/
def attrMatchesDateRe (v : String) : Bool :=
  dateKeywords.any (fun k => containsSub (pyLower v) k)

/-- Backtracking matcher for `\d{4}` followed by continuation `k`. -/
def matchNum4 (k : List Char → Option (List Char)) : List Char → Option (List Char)
  | y1 :: y2 :: y3 :: y4 :: rest =>
    if y1.isDigit && y2.isDigit && y3.isDigit && y4.isDigit then
      (k rest).map (fun tail => y1 :: y2 :: y3 :: y4 :: tail)
    else none
  | _ => none

/-- Matcher for a separator `-`, `/` or `.`. -/
def matchSepChar (k : List Char → Option (List Char)) : List Char → Option (List Char)
  | c :: rest =>
    if c = '-' || c = '/' || c = '.' then (k rest).map (c :: ·) else none
  | [] => none

/-- Empty-continuation matcher (end of pattern, rest ignored). -/
def matchDone : List Char → Option (List Char) := fun _ => some []

/-- Anchored match of `year sep month sep day` with separators `-`, `/` or `.`. -/
def ymdMatchAt : List Char → Option (List Char) :=
  matchNum4 (matchSepChar (matchNum12 (matchSepChar (matchNum12 matchDone))))

/-- Existence of a match of `m` at some position (`re.search` success). -/
def searchWith (m : List Char → Option (List Char)) : List Char → Bool
  | [] => (m []).isSome
  | c :: t => (m (c :: t)).isSome || searchWith m t

/-- The third date heuristic's text test: the candidate's text must match
`year sep month sep day` with separators `-`, `/` or `.` or `\d{1,2}\.\d{1,2}\.\d{4}`. -/
def hasDatePattern (s : String) : Bool :=
  searchWith ymdMatchAt s.data || (dmySearchList s.data).isSome

/-- `soup.find_all(attrs={"class": date_re}) + soup.find_all(attrs={"id":
date_re})`: descendants whose class attribute matches the keyword regex,
then those whose id attribute does, each in document order. -/
def dateCandidates (root : HNode) : List HNode :=
  ((nodeDescs [] root).filterMap (fun p =>
    match attrOf p.2 "class" with
    | some v => if attrMatchesDateRe v then some p.2 else none
    | none => none)) ++
  ((nodeDescs [] root).filterMap (fun p =>
    match attrOf p.2 "id" with
    | some v => if attrMatchesDateRe v then some p.2 else none
    | none => none))

/-- The candidate loop of the third date heuristic: first candidate whose
spaced text is non-empty and contains a recognizable date pattern. -/
def dateFromCandidates (root : HNode) : Option String :=
  ((dateCandidates root).find? (fun c =>
    let txt := getTextWith " " true c
    txt != "" && hasDatePattern txt)).map (getTextWith " " true)

/-- Selector `.page-content-title h1` of the title heuristic. -/
def titleSelChain : List SimpleSel :=
  [⟨none, some "page-content-title", none⟩, ⟨some "h1", none, none⟩]

/-- The generic-heading fallback: first `h1`, then `h2`, then `h3`, each
accepted only with non-empty stripped text. -/
def headingTitle (root : HNode) : Option String :=
  (["h1", "h2", "h3"].filterMap (fun tg =>
    match findTag root tg with
    | some el => let t := getTextStrip el; if t != "" then some t else none
    | none => none)).head?

/-- The title heuristic chain of `extract_from_announcement` (lines
95-111), `none` when every heuristic misses and the placeholder is used. -/
def titleCand (root : HNode) : Option String :=
  let step2 : Option String :=
    match headingTitle root with
    | some t => some t
    | none =>
      match findTag root "title" with
      | some tEl =>
        match tagString tEl with
        | some s =>
          if s != "" then (let st := pyStrip s; if st != "" then some st else none)
          else none
        | none => none
      | none => none
  match (selectOne root titleSelChain).map getTextStrip with
  | some t => if t != "" then some t else step2
  | none => step2

/-- Raw title including the placeholder default `Başlıksız duyuru`. -/
def rawTitle (root : HNode) : String := (titleCand root).getD "Başlıksız duyuru"

/-- The date heuristic chain of `extract_from_announcement` (lines
113-133); `""` when no heuristic produces a (truthy) date text. -/
def rawDate (root : HNode) : String :=
  let dateEl : Option HNode :=
    match selectOne root [⟨none, some "content-text", none⟩, ⟨none, some "date", none⟩] with
    | some el => some el
    | none => selectOne root [⟨none, some "date", none⟩]
  let p1 : String :=
    match dateEl with
    | some el => getTextStrip el
    | none => ""
  if p1 != "" then p1
  else
    let p2 : String :=
      match findTag root "time" with
      | some tEl =>
        match attrOf tEl "datetime" with
        | some v => if v != "" then v else getTextStrip tEl
        | none => getTextStrip tEl
      | none => ""
    if p2 != "" then p2
    else
      match dateFromCandidates root with
      | some t => t
      | none => ""

/-- The content selector priority list (lines 137-147). -/
def contentSelectors : List (List SimpleSel) :=
  [[⟨none, some "content-text", none⟩],
   [⟨some "article", none, none⟩],
   [⟨some "div", some "duyuru-content", none⟩],
   [⟨some "div", some "content", none⟩],
   [⟨some "div", some "icerik", none⟩],
   [⟨some "div", none, some "content"⟩],
   [⟨some "div", some "panel-body", none⟩],
   [⟨none, none, some "pageContent"⟩],
   [⟨some "main", none, none⟩]]

/-- First content selector whose element exists and has non-empty
stripped text (lines 148-152). -/
def contentSel (root : HNode) : Option HNode :=
  (contentSelectors.filterMap (fun sels =>
    match selectOne root sels with
    | some el => if getTextStrip el != "" then some el else none
    | none => none)).head?

/-- `soup.body or soup`: the document body, or the whole document when
there is no `body` element. -/
def bodyOr (root : HNode) : HNode := (findTag root "body").getD root

/-- Nodes removed from the content container before serialization:
`script, style, nav, form, footer, header, .date`. -/
def isBadNode (n : HNode) : Bool :=
  match n with
  | .elem tg _ _ =>
    tg == "script" || tg == "style" || tg == "nav" || tg == "form"
      || tg == "footer" || tg == "header" || (classTokens n).contains "date"
  | .text _ => false

mutual
/-- Content container after `decompose` of the unwanted sub-elements. -/
def pruneNode : HNode → HNode
  | .elem tg a cs => .elem tg a (pruneList cs)
  | .text s => .text s
/-- `decompose` over a child list. -/
def pruneList : List HNode → List HNode
  | [] => []
  | c :: t => if isBadNode c then pruneList t else pruneNode c :: pruneList t
end

/-- Minimal-formatter entity escaping of one text character
(BeautifulSoup `str()` output). -/
def escapeTextChar (c : Char) : List Char :=
  if c = '&' then "&amp;".data
  else if c = '<' then "&lt;".data
  else if c = '>' then "&gt;".data
  else [c]

/-- Entity escaping of text content. -/
def escapeText (l : List Char) : List Char := (l.map escapeTextChar).flatten

/-- Entity escaping inside a double-quoted attribute value. -/
def escapeAttrChar (c : Char) : List Char :=
  if c = '"' then "&quot;".data else escapeTextChar c

/-- Rendering of an attribute list as ` key="value"` runs. -/
def renderAttrs : List (String × String) → List Char
  | [] => []
  | (k, v) :: t =>
    ' ' :: (k.data ++ '=' :: '"' :: ((v.data.map escapeAttrChar).flatten ++ '"' :: renderAttrs t))

mutual
/-- Serialization of a node back to HTML text, as `str(tag)` does
(modelled without the HTML void-element special case). -/
def renderNode : HNode → List Char
  | .text s => escapeText s.data
  | .elem tg a cs =>
    '<' :: (tg.data ++ renderAttrs a ++ '>' :: (renderList cs ++ '<' :: '/' :: (tg.data ++ ['>'])))
/-- Serialization of a sibling list. -/
def renderList : List HNode → List Char
  | [] => []
  | c :: t => renderNode c ++ renderList t
end

/-- Fuel-driven HTML entity decoding: named entities `amp`, `lt`, `gt`,
`quot`, `apos` and decimal numeric references with a valid scalar value
(a subset of Python `html.unescape` sufficient for the entities the
serializer itself produces). -/
def unescapeAux : Nat → List Char → List Char
  | 0, l => l
  | fuel + 1, l =>
    match l with
    | [] => []
    | '&' :: rest =>
      if "amp;".data.isPrefixOf rest then '&' :: unescapeAux fuel (rest.drop 4)
      else if "lt;".data.isPrefixOf rest then '<' :: unescapeAux fuel (rest.drop 3)
      else if "gt;".data.isPrefixOf rest then '>' :: unescapeAux fuel (rest.drop 3)
      else if "quot;".data.isPrefixOf rest then '"' :: unescapeAux fuel (rest.drop 5)
      else if "apos;".data.isPrefixOf rest then '\'' :: unescapeAux fuel (rest.drop 5)
      else
        match rest with
        | '#' :: r2 =>
          let ds := r2.takeWhile Char.isDigit
          let n := parseChars ds
          if !ds.isEmpty && (r2.drop ds.length).take 1 = [';']
              && (n < 0xD800 || (0xE000 ≤ n && n ≤ 0x10FFFF)) then
            Char.ofNat n :: unescapeAux fuel (r2.drop (ds.length + 1))
          else '&' :: unescapeAux fuel rest
        | _ => '&' :: unescapeAux fuel rest
    | c :: rest => c :: unescapeAux fuel rest

/-- `html.unescape` (modelled subset). -/
def unescapeList (l : List Char) : List Char := unescapeAux l.length l

/-- The record dictionary returned per announcement. -/
structure AnnRecord where
  title : String
  link : String
  description : String
  pubDate : String
deriving DecidableEq, Repr

/-- Lines 157-164: prune the chosen container, serialize its children,
strip, entity-unescape, and sanitize. -/
def descriptionOf (contentTag : HNode) : String :=
  clean_xml_string ⟨unescapeList (trimList (renderList (childrenOf (pruneNode contentTag))))⟩

/-- `extract_from_announcement(html, page_url)`: title, link, sanitized
description and normalized pubDate for one announcement page. The general
day-first parser used as the date fallback is a parameter. -/
def extract_from_announcement (root : HNode) (pageUrl : String)
    (fallbackParse : String → Option PyDateTime) : AnnRecord :=
  { title := clean_xml_string (rawTitle root)
    link := pageUrl
    description := descriptionOf ((contentSel root).getD (bodyOr root))
    pubDate := normalizePubdate fallbackParse (rawDate root) }

/-- Parsed URL in the shape of `urllib.parse.urlsplit`: scheme, netloc,
path, query, fragment. -/
structure UrlM where
  scheme : String
  netloc : String
  path : String
  query : String
  fragment : String
deriving DecidableEq, Repr

/-- Characters allowed in a URL scheme after the leading letter. -/
def isSchemeChar (c : Char) : Bool := c.isAlphanum || c = '+' || c = '-' || c = '.'

/-- Split a leading `scheme:` prefix when present and syntactically
valid, as `urllib.parse` does. -/
def splitScheme (l : List Char) : Option (List Char × List Char) :=
  let pre := l.takeWhile (fun c => c != ':')
  if pre.length < l.length then
    match pre with
    | c :: rest =>
      if c.isAlpha && rest.all isSchemeChar then some (pre, l.drop (pre.length + 1))
      else none
    | [] => none
  else none

/-- Model of `urllib.parse.urlparse` (five-component form; the unused
`params` component is folded into the path as in `urlsplit`). -/
def parseUrl (s : String) : UrlM :=
  let l := s.data
  let schemeRest : List Char × List Char :=
    match splitScheme l with
    | some (sc, r) => (sc.map Char.toLower, r)
    | none => ([], l)
  let rest := schemeRest.2
  let netlocRest : List Char × List Char :=
    if ['/', '/'].isPrefixOf rest then
      let r := rest.drop 2
      (r.takeWhile (fun c => c != '/' && c != '?' && c != '#'),
       r.dropWhile (fun c => c != '/' && c != '?' && c != '#'))
    else ([], rest)
  let rest2 := netlocRest.2
  let pathPart := rest2.takeWhile (fun c => c != '?' && c != '#')
  let rest3 := rest2.dropWhile (fun c => c != '?' && c != '#')
  let queryFrag : List Char × List Char :=
    match rest3 with
    | '?' :: r =>
      (r.takeWhile (fun c => c != '#'),
       match r.dropWhile (fun c => c != '#') with
       | '#' :: f => f
       | _ => [])
    | '#' :: f => ([], f)
    | _ => ([], [])
  ⟨⟨schemeRest.1⟩, ⟨netlocRest.1⟩, ⟨pathPart⟩, ⟨queryFrag.1⟩, ⟨queryFrag.2⟩⟩

/-- Model of `urllib.parse.urlunsplit`. -/
def unparseUrl (u : UrlM) : String :=
  (if u.scheme != "" then u.scheme ++ ":" else "")
    ++ (if u.netloc != "" then "//" ++ u.netloc else "")
    ++ u.path
    ++ (if u.query != "" then "?" ++ u.query else "")
    ++ (if u.fragment != "" then "#" ++ u.fragment else "")

/-- Schemes treated as relative-capable by `urllib.parse.urljoin`. -/
def usesRelative : List String :=
  ["", "ftp", "http", "gopher", "nntp", "imap", "wais", "file", "https",
   "shttp", "mms", "prospero", "rtsp", "rtspu", "sftp", "svn", "svn+ssh",
   "ws", "wss"]

/-- Path segments of a path string (`path.split('/')`). -/
def segsOf (p : String) : List String :=
  (splitOnChar '/' p.data).map (fun l => (⟨l⟩ : String))

/-- Drop empty segments strictly between the first and last
(`segments[1:-1] = filter(None, segments[1:-1])`). -/
def filterMiddle : List String → List String
  | [] => []
  | [x] => [x]
  | x :: rest =>
    x :: ((rest.dropLast).filter (fun s => s != "") ++ [rest.getLastD ""])

/-- Dot-segment resolution loop of `urljoin`: `..` pops, `.` is skipped,
anything else is appended. -/
def dotFold (acc : List String) : List String → List String
  | [] => acc
  | seg :: t =>
    if seg = ".." then dotFold acc.dropLast t
    else if seg = "." then dotFold acc t
    else dotFold (acc ++ [seg]) t

/-- Model of `urllib.parse.urljoin` covering absolute references,
netloc-relative, path-absolute, path-relative, query-only and
fragment-only references, with dot-segment resolution. -/
def urljoinM (base url : String) : String :=
  if base = "" then url
  else if url = "" then base
  else
    let b := parseUrl base
    let uRaw := parseUrl url
    let u : UrlM := if uRaw.scheme = "" then { uRaw with scheme := b.scheme } else uRaw
    if u.scheme != b.scheme || !(usesRelative.contains u.scheme) then url
    else if u.netloc != "" then unparseUrl u
    else
      let netloc := b.netloc
      if u.path = "" then
        unparseUrl { scheme := u.scheme, netloc := netloc, path := b.path,
                     query := if u.query != "" then u.query else b.query,
                     fragment := u.fragment }
      else
        let bp0 := segsOf b.path
        let bp := if bp0.getLastD "" != "" then bp0.dropLast else bp0
        let segments :=
          match u.path.data with
          | '/' :: _ => segsOf u.path
          | _ => filterMiddle (bp ++ segsOf u.path)
        let resolved := dotFold [] segments
        let resolved :=
          if segments.getLastD "" = "." || segments.getLastD "" = ".." then
            resolved ++ [""]
          else resolved
        let joined := joinSep "/" resolved
        unparseUrl { scheme := u.scheme, netloc := netloc,
                     path := if joined = "" then "/" else joined,
                     query := u.query, fragment := u.fragment }

/-- The acceptance filter of `find_announcement_links` (lines 63-76),
applied to the stripped href and its resolved absolute URL: must mention
`duyuru`, must not be pagination, a `javascript:` pseudo-URL or a
fragment-only anchor, and must not resolve to the bare listing root. -/
def acceptHref (href full : String) : Bool :=
  (containsSub (pyLower href) "duyuru" || containsSub href "/duyuru/")
    && !(containsSub href "?page=")
    && !(containsSub href "javascript:")
    && !(['#'].isPrefixOf href.data)
    && (let p := (parseUrl full).path; !(p == "/duyuru" || p == "/duyuru/"))

/-- The resolved URL an anchor contributes when it passes the filter. -/
def hrefCandidate (base h : String) : Option String :=
  if acceptHref (pyStrip h) (urljoinM base (pyStrip h)) then
    some (urljoinM base (pyStrip h))
  else none

/-- The seen-set loop of `find_announcement_links` (lines 50-79). -/
def findLinksAux (base : String) : List String → List String → List String
  | [], _ => []
  | h :: t, seen =>
    if seen.contains (urljoinM base (pyStrip h)) then findLinksAux base t seen
    else if acceptHref (pyStrip h) (urljoinM base (pyStrip h)) then
      urljoinM base (pyStrip h) :: findLinksAux base t (urljoinM base (pyStrip h) :: seen)
    else findLinksAux base t seen

/-- `find_announcement_links(list_html, base_url)`, taking the hrefs of
the page's anchor elements in document order (the result of
`soup.find_all("a", href=True)`). -/
def find_announcement_links (hrefs : List String) (base : String) : List String :=
  findLinksAux base hrefs []

/-- First-occurrence deduplication with an explicit seen list. -/
def dedupAux : List String → List String → List String
  | [], _ => []
  | x :: t, seen =>
    if seen.contains x then dedupAux t seen else x :: dedupAux t (x :: seen)

/-- Keep the first occurrence of every string, in order. -/
def dedupFirst (l : List String) : List String := dedupAux l []

/-- `binary_extensions` of `main` (line 232). -/
def binary_extensions : List String :=
  [".pdf", ".docx", ".xlsx", ".xls", ".zip", ".jpg", ".png"]

/-- Path component of a link (`urlparse(link).path`). -/
def linkPath (link : String) : String := (parseUrl link).path

/-- The binary-file test of `main` (line 239):
`parsed_link.path.lower().endswith(ext)` for some fixed extension. -/
def isBinaryLink (link : String) : Bool :=
  binary_extensions.any (fun e => e.data.isSuffixOf (pyLower (linkPath link)).data)

/-- `parsed_link.path.split("/")[-1]`. -/
def basenameOf (link : String) : String :=
  ((splitOnChar '/' (linkPath link).data).map (fun l => (⟨l⟩ : String))).getLastD ""

/-- The record synthesized for a binary file link (lines 240-246), with
the wall-clock time passed explicitly. -/
def binaryRecord (link : String) (now : PyDateTime) : AnnRecord :=
  { title := "Dosya: " ++ basenameOf link
    link := link
    description :=
      "Bu duyuru bir dosya bağlantısıdır: <a href='" ++ link ++ "'>"
        ++ basenameOf link ++ "</a>"
    pubDate := formatDatetime now }

/-- The per-link body of `main`'s loop (lines 234-254): binary links are
synthesized without fetching; otherwise the page is fetched (the HTTP
collaborator is the `fetchPage` parameter, `none` modelling a failed
fetch, which skips the link) and passed to the Page Extractor. -/
def processLink (fetchPage : String → Option HNode)
    (fallbackParse : String → Option PyDateTime) (now : PyDateTime)
    (link : String) : Option AnnRecord :=
  if isBinaryLink link then some (binaryRecord link now)
  else
    match fetchPage link with
    | none => none
    | some doc => some (extract_from_announcement doc link fallbackParse)

/-- RSS element tree (the `xml.etree.ElementTree` structure built by
`build_rss`, with element text modelled as a leading text child). -/
inductive XNode where
  | elem (tag : String) (attrs : List (String × String)) (children : List XNode)
  | text (s : String)
deriving Repr

/-- One `<item>` element of `build_rss` (lines 198-206): title, link,
guid with text equal to the link, pubDate only when non-empty, then
description. -/
def itemElem (it : AnnRecord) : XNode :=
  .elem "item" []
    ([XNode.elem "title" [] [.text it.title],
      XNode.elem "link" [] [.text it.link],
      XNode.elem "guid" [] [.text it.link]]
      ++ (if it.pubDate != "" then [XNode.elem "pubDate" [] [.text it.pubDate]] else [])
      ++ [XNode.elem "description" [] [.text it.description]])

/-- `build_rss(channel_title, channel_link, channel_desc, items)` as an
element tree, with the build clock passed explicitly. -/
def build_rss (channelTitle channelLink channelDesc : String)
    (items : List AnnRecord) (now : PyDateTime) : XNode :=
  .elem "rss" [("version", "2.0")]
    [.elem "channel" []
      ([XNode.elem "title" [] [.text channelTitle],
        XNode.elem "link" [] [.text channelLink],
        XNode.elem "description" [] [.text channelDesc],
        XNode.elem "lastBuildDate" [] [.text (formatDatetime now)]]
        ++ items.map itemElem)]

mutual
/-- Serialization of the RSS tree to markup, as `ET.tostring` renders it
(entity escaping of text and attribute values; modelled without the
XML declaration, pretty-printing whitespace and self-closing forms). -/
def serializeXml : XNode → List Char
  | .text s => escapeText s.data
  | .elem tg a cs =>
    '<' :: (tg.data ++ renderAttrs a
      ++ '>' :: (serializeListXml cs ++ '<' :: '/' :: (tg.data ++ ['>'])))
/-- Serialization of a sibling list of the RSS tree. -/
def serializeListXml : List XNode → List Char
  | [] => []
  | c :: t => serializeXml c ++ serializeListXml t
end

/-- Channel title constant of `main` (line 256). -/
def channelTitleConst : String := "TİTCK Duyurular (otomatik)"

/-- Channel description constant of `main` (line 258). -/
def channelDescConst : String := "T.C. Türkiye İlaç ve Tıbbi Cihaz Kurumu duyuruları (otomatik oluşturulmuş RSS)"

/-- `DEFAULT_URL` (line 34). -/
def DEFAULT_URL : String := "https://titck.gov.tr/duyuru?page=1"

/-- Line 225 of `main`: `"{scheme}://{host}"` from the listing URL. -/
def schemeHostOf (url : String) : String :=
  let u := parseUrl url
  u.scheme ++ "://" ++ u.netloc

/-- The run of `main` after argument parsing: the fetched listing page is
given as its anchor hrefs (`none` for a failed listing fetch), and the
outcome is either the exit code 1 (`sys.exit(1)`) or the serialized feed
string. -/
def runMain (listingAnchors : Option (List String)) (url : String) (maxItems : Nat)
    (fetchPage : String → Option HNode)
    (fallbackParse : String → Option PyDateTime) (now : PyDateTime) :
    Except Nat String :=
  match listingAnchors with
  | none => .error 1
  | some anchors =>
    if (find_announcement_links anchors (schemeHostOf url)).isEmpty then .error 1
    else
      .ok ⟨serializeXml (build_rss channelTitleConst url channelDescConst
        (((find_announcement_links anchors (schemeHostOf url)).take maxItems).filterMap
          (processLink fetchPage fallbackParse now)) now)⟩

theorem digitChar10_isDigit (k : Nat) : (digitChar10 k).isDigit = true := by
  have h : ∀ r, r < 10 → (Char.ofNat (48 + r)).isDigit = true := by decide
  exact h _ (Nat.mod_lt _ (by omega))

theorem digitChar10_toNat (k : Nat) : (digitChar10 k).toNat = 48 + k % 10 := by
  have h : ∀ r, r < 10 → (Char.ofNat (48 + r)).toNat = 48 + r := by decide
  exact h _ (Nat.mod_lt _ (by omega))

theorem natToCharsAux_digits (fuel n : Nat) :
    ∀ c ∈ natToCharsAux fuel n, c.isDigit = true := by
  induction fuel generalizing n with
  | zero => intro c hc; simp [natToCharsAux] at hc; simp [hc, digitChar10_isDigit]
  | succ fuel ih =>
    intro c hc
    by_cases h : n < 10
    · simp [natToCharsAux, h] at hc; simp [hc, digitChar10_isDigit]
    · simp [natToCharsAux, h] at hc
      rcases hc with hc | hc
      · exact ih _ _ hc
      · simp [hc, digitChar10_isDigit]

theorem parseCharsFrom_nil (acc : Nat) : parseCharsFrom acc [] = acc := rfl

theorem parseCharsFrom_cons (acc : Nat) (c : Char) (t : List Char) :
    parseCharsFrom acc (c :: t) = parseCharsFrom (acc * 10 + (c.toNat - 48)) t := rfl

theorem parseCharsFrom_append (acc : Nat) (l1 l2 : List Char) :
    parseCharsFrom acc (l1 ++ l2) = parseCharsFrom (parseCharsFrom acc l1) l2 := by
  induction l1 generalizing acc with
  | nil => rfl
  | cons c t ih => exact ih _

theorem natToCharsAux_val (fuel : Nat) :
    ∀ n acc, n ≤ fuel → parseCharsFrom acc (natToCharsAux fuel n)
      = acc * 10 ^ (natToCharsAux fuel n).length + n := by
  induction fuel with
  | zero =>
    intro n acc hn
    have hn0 : n = 0 := by omega
    subst hn0
    show parseCharsFrom acc [digitChar10 0] = acc * 10 ^ ([digitChar10 0].length) + 0
    rw [parseCharsFrom_cons, parseCharsFrom_nil, digitChar10_toNat]
    simp
  | succ fuel ih =>
    intro n acc hn
    by_cases h : n < 10
    · have hmod : n % 10 = n := Nat.mod_eq_of_lt h
      rw [natToCharsAux, if_pos h, parseCharsFrom_cons, parseCharsFrom_nil,
        digitChar10_toNat, hmod]
      simp
    · have hdiv : n / 10 ≤ fuel := by
        have := Nat.div_lt_self (by omega : 0 < n) (by omega : 1 < 10)
        omega
      rw [natToCharsAux, if_neg h, parseCharsFrom_append, ih _ acc hdiv,
        parseCharsFrom_cons, parseCharsFrom_nil, digitChar10_toNat]
      have hlen : (natToCharsAux fuel (n / 10) ++ [digitChar10 (n % 10)]).length
          = (natToCharsAux fuel (n / 10)).length + 1 := by simp
      rw [hlen, pow_succ]
      have hdm := Nat.div_add_mod n 10
      have hmod : n % 10 < 10 := Nat.mod_lt _ (by omega)
      ring_nf
      omega

theorem natToCharsAux_len_le (fuel : Nat) :
    ∀ n w, n ≤ fuel → n < 10 ^ w → 1 ≤ w → (natToCharsAux fuel n).length ≤ w := by
  induction fuel with
  | zero => intro n w _ _ hw; simp [natToCharsAux]; omega
  | succ fuel ih =>
    intro n w hn hpow hw
    by_cases h : n < 10
    · simp [natToCharsAux, h]; omega
    · have hw2 : 2 ≤ w := by
        by_contra hc
        have hw1 : w = 1 := by omega
        subst hw1
        simp at hpow
        omega
      have hdiv : n / 10 ≤ fuel := by
        have := Nat.div_lt_self (by omega : 0 < n) (by omega : 1 < 10)
        omega
      have hdivpow : n / 10 < 10 ^ (w - 1) := by
        rw [Nat.div_lt_iff_lt_mul (by omega : 0 < 10)]
        have hp : 10 ^ (w - 1) * 10 = 10 ^ w := by
          rw [← Nat.pow_succ]
          congr 1
          omega
        omega
      have := ih (n / 10) (w - 1) hdiv hdivpow (by omega)
      simp [natToCharsAux, h, List.length_append]
      omega

theorem padNum_digits (w n : Nat) : ∀ c ∈ padNum w n, c.isDigit = true := by
  intro c hc
  simp [padNum] at hc
  rcases hc with hc | hc
  · simp [hc.2]
  · exact natToCharsAux_digits _ _ _ hc

theorem padNum_length (w n : Nat) (h : n < 10 ^ w) (hw : 1 ≤ w) :
    (padNum w n).length = w := by
  have := natToCharsAux_len_le n n w (Nat.le_refl n) h hw
  simp [padNum, natToChars]
  omega

theorem parseCharsFrom_zeros (acc k : Nat) :
    parseCharsFrom acc (List.replicate k '0') = acc * 10 ^ k := by
  induction k generalizing acc with
  | zero => simp [parseCharsFrom_nil]
  | succ k ih =>
    have hz : ('0' : Char).toNat - 48 = 0 := by decide
    rw [List.replicate_succ, parseCharsFrom_cons, hz, Nat.add_zero, ih, pow_succ]
    ring

theorem padNum_val (w n : Nat) : parseChars (padNum w n) = n := by
  unfold parseChars padNum
  rw [parseCharsFrom_append, parseCharsFrom_zeros]
  simp only [Nat.zero_mul, natToChars]
  have := natToCharsAux_val n n 0 (Nat.le_refl n)
  simpa using this

theorem daysInMonth_le (y m : Nat) : daysInMonth y m ≤ 31 := by
  unfold daysInMonth
  split
  · split <;> omega
  · split <;> omega

theorem takeDigitsN_padNum (w n : Nat) (rest : List Char)
    (h : n < 10 ^ w) (hw : 1 ≤ w) :
    takeDigitsN w (padNum w n ++ rest) = some (n, rest) := by
  have hlen : (padNum w n).length = w := padNum_length w n h hw
  have htake : (padNum w n ++ rest).take w = padNum w n := by
    have h0 := List.take_left (padNum w n) rest
    rwa [hlen] at h0
  have hdrop : (padNum w n ++ rest).drop w = rest := by
    have h0 := List.drop_left (padNum w n) rest
    rwa [hlen] at h0
  have hall : (padNum w n).all Char.isDigit = true := by
    rw [List.all_eq_true]
    intro c hc
    exact padNum_digits w n c hc
  unfold takeDigitsN
  simp only [htake, hdrop, hlen, hall, Bool.and_true, and_true]
  simp [padNum_val]

theorem expectChar_cons (c : Char) (rest : List Char) :
    expectChar c (c :: rest) = some rest := by simp [expectChar]

theorem parseDayHead_getD (w : Nat) (rest : List Char) :
    parseDayHead ((dayNamesTable.getD w "Mon").data ++ ',' :: ' ' :: rest)
      = some rest := by
  rcases Nat.lt_or_ge w 7 with h | h
  · interval_cases w <;> rfl
  · have : dayNamesTable.getD w "Mon" = "Mon" :=
      List.getD_eq_default _ _ (by simp [dayNamesTable]; omega)
    rw [this]
    rfl

theorem parseMonthName_getD (mo : Nat) (rest : List Char)
    (h1 : 1 ≤ mo) (h2 : mo ≤ 12) :
    parseMonthName ((monthNamesTable.getD (mo - 1) "Jan").data ++ ' ' :: rest)
      = some (mo, ' ' :: rest) := by
  interval_cases mo <;> rfl

theorem parseTz_none : parseTz (tzChars none) = some none := rfl

theorem parseTz_some (off : Int) (h : off.natAbs < 1440) :
    parseTz (tzChars (some off)) = some (some off) := by
  have hdiv : off.natAbs / 60 < 24 := by omega
  have hmod : off.natAbs % 60 < 60 := by omega
  have h1 : takeDigitsN 2 (padNum 2 (off.natAbs / 60) ++ padNum 2 (off.natAbs % 60))
      = some (off.natAbs / 60, padNum 2 (off.natAbs % 60)) :=
    takeDigitsN_padNum 2 _ _ (by omega) (by omega)
  have h2 : takeDigitsN 2 (padNum 2 (off.natAbs % 60)) = some (off.natAbs % 60, []) := by
    have := takeDigitsN_padNum 2 (off.natAbs % 60) [] (by omega) (by omega)
    simpa using this
  have hval : off.natAbs / 60 * 60 + off.natAbs % 60 = off.natAbs := by omega
  rcases Int.lt_or_le off 0 with hneg | hpos
  · have hsign : (if off < 0 then '-' else '+') = '-' := if_pos hneg
    show parseTz (tzChars (some off)) = some (some off)
    unfold tzChars
    simp only [hsign]
    unfold parseTz
    simp only [h1, h2, hdiv, hmod, hval]
    have hne : ¬(('-' : Char) = '+') := by decide
    have hz : off.natAbs ≠ 0 := by omega
    simp only [if_neg hne, if_pos rfl]
    have : (if off.natAbs = 0 then (none : Option Int) else some (-(off.natAbs : Int)))
        = some (-(off.natAbs : Int)) := if_neg hz
    simp only [this]
    have : -((off.natAbs : Int)) = off := by omega
    simp only [this]
    rfl
  · have hsign : (if off < 0 then '-' else '+') = '+' := if_neg (by omega)
    unfold tzChars
    simp only [hsign]
    unfold parseTz
    simp only [h1, h2, hdiv, hmod, hval]
    have : ((off.natAbs : Int)) = off := by omega
    simp [this]

theorem parseTz_tzChars (tz : Option Int) (h : tzOkB tz = true) :
    parseTz (tzChars tz) = some tz := by
  cases tz with
  | none => exact parseTz_none
  | some off =>
    refine parseTz_some off ?_
    simpa [tzOkB] using h

theorem rfc2822Parse_format (dt : PyDateTime) (h : ValidDT dt) :
    rfc2822Parse (formatDatetimeChars dt) = some dt := by
  obtain ⟨hy1, hy2, hm1, hm2, hd1, hd2, hh, hmi, hs, htz⟩ := h
  have hd100 : dt.day < 100 :=
    lt_of_le_of_lt hd2 (lt_of_le_of_lt (daysInMonth_le _ _) (by omega))
  have s1 : ∀ rest, parseDayHead
      ((dayNamesTable.getD (weekdayOf dt.year dt.month dt.day) "Mon").data
        ++ ',' :: ' ' :: rest) = some rest :=
    fun rest => parseDayHead_getD _ rest
  have s2 : ∀ rest, takeDigitsN 2 (padNum 2 dt.day ++ rest) = some (dt.day, rest) :=
    fun rest => takeDigitsN_padNum 2 dt.day rest (by omega) (by omega)
  have s3 : ∀ rest, parseMonthName
      ((monthNamesTable.getD (dt.month - 1) "Jan").data ++ ' ' :: rest)
        = some (dt.month, ' ' :: rest) :=
    fun rest => parseMonthName_getD dt.month rest hm1 hm2
  have s4 : ∀ rest, takeDigitsN 4 (padNum 4 dt.year ++ rest) = some (dt.year, rest) :=
    fun rest => takeDigitsN_padNum 4 dt.year rest (by omega) (by omega)
  have s5 : ∀ rest, takeDigitsN 2 (padNum 2 dt.hour ++ rest) = some (dt.hour, rest) :=
    fun rest => takeDigitsN_padNum 2 dt.hour rest (by omega) (by omega)
  have s6 : ∀ rest, takeDigitsN 2 (padNum 2 dt.minute ++ rest) = some (dt.minute, rest) :=
    fun rest => takeDigitsN_padNum 2 dt.minute rest (by omega) (by omega)
  have s7 : ∀ rest, takeDigitsN 2 (padNum 2 dt.second ++ rest) = some (dt.second, rest) :=
    fun rest => takeDigitsN_padNum 2 dt.second rest (by omega) (by omega)
  have s8 : parseTz (tzChars dt.tz) = some dt.tz := parseTz_tzChars dt.tz htz
  simp only [rfc2822Parse, formatDatetimeChars, List.append_assoc, List.cons_append,
    List.nil_append, s1, s2, s3, s4, s5, s6, s7, s8, expectChar_cons]
  rw [if_pos ⟨hy1, hy2, hm1, hm2, hd1, hd2, hh, hmi, hs, htz⟩]

theorem isDigit_toNat_bounds (c : Char) (h : c.isDigit = true) :
    48 ≤ c.toNat ∧ c.toNat ≤ 57 := by
  unfold Char.isDigit at h
  simp only [Bool.and_eq_true, decide_eq_true_eq] at h
  obtain ⟨h1, h2⟩ := h
  constructor
  · exact h1
  · exact h2

theorem parseCharsFrom_lt (l : List Char) :
    ∀ acc, (∀ c ∈ l, c.isDigit = true) →
      parseCharsFrom acc l < (acc + 1) * 10 ^ l.length := by
  induction l with
  | nil => intro acc _; simp [parseCharsFrom_nil]
  | cons c t ih =>
    intro acc hd
    have hc := isDigit_toNat_bounds c (hd c (by simp))
    have ht : ∀ x ∈ t, x.isDigit = true := fun x hx => hd x (by simp [hx])
    rw [parseCharsFrom_cons]
    have := ih (acc * 10 + (c.toNat - 48)) ht
    have hstep : (acc * 10 + (c.toNat - 48) + 1) * 10 ^ t.length
        ≤ (acc + 1) * 10 ^ (c :: t).length := by
      have h9 : c.toNat - 48 ≤ 9 := by omega
      simp only [List.length_cons, pow_succ]
      have : acc * 10 + (c.toNat - 48) + 1 ≤ (acc + 1) * 10 := by omega
      calc (acc * 10 + (c.toNat - 48) + 1) * 10 ^ t.length
          ≤ (acc + 1) * 10 * 10 ^ t.length :=
            Nat.mul_le_mul_right _ this
        _ = (acc + 1) * (10 ^ t.length * 10) := by ring
    omega

theorem parseChars_lt (l : List Char) (h : ∀ c ∈ l, c.isDigit = true) :
    parseChars l < 10 ^ l.length := by
  have := parseCharsFrom_lt l 0 h
  simpa [parseChars] using this

theorem rfc2822Parse_valid (cs : List Char) (dt : PyDateTime)
    (h : rfc2822Parse cs = some dt) : ValidDT dt := by
  unfold rfc2822Parse at h
  split at h
  · exact absurd h (by simp)
  split at h
  · exact absurd h (by simp)
  split at h
  · exact absurd h (by simp)
  split at h
  · exact absurd h (by simp)
  split at h
  · exact absurd h (by simp)
  split at h
  · exact absurd h (by simp)
  split at h
  · exact absurd h (by simp)
  split at h
  · exact absurd h (by simp)
  split at h
  · exact absurd h (by simp)
  split at h
  · exact absurd h (by simp)
  split at h
  · exact absurd h (by simp)
  split at h
  · exact absurd h (by simp)
  split at h
  · exact absurd h (by simp)
  split at h
  · exact absurd h (by simp)
  split at h
  · rename_i hcond
    obtain ⟨h1, h2, h3, h4, h5, h6, h7, h8, h9, h10⟩ := hcond
    simp only [Option.some.injEq] at h
    subst h
    exact ⟨h1, h2, h3, h4, h5, h6, h7, h8, h9, h10⟩
  · exact absurd h (by simp)

theorem strptimeDMY_valid (s : String) (dt : PyDateTime)
    (h : strptimeDMY s = some dt) :
    ValidDT dt ∧ dt.hour = 0 ∧ dt.minute = 0 ∧ dt.second = 0 ∧ dt.tz = none := by
  unfold strptimeDMY at h
  split at h
  · rename_i ds ms ys heq
    split at h
    · rename_i hfmt
      split at h
      · rename_i hrange
        simp only [Bool.and_eq_true, decide_eq_true_eq, List.all_eq_true] at hfmt hrange
        simp only [Option.some.injEq] at h
        subst h
        obtain ⟨⟨⟨⟨⟨⟨⟨hdd, hmd⟩, hyd⟩, hds1⟩, hds2⟩, hms1⟩, hms2⟩, hys4⟩ := hfmt
        obtain ⟨⟨⟨⟨hy1, hm1⟩, hm12⟩, hd1⟩, hdim⟩ := hrange
        have hylt : parseChars ys < 10 ^ ys.length := parseChars_lt ys hyd
        rw [hys4] at hylt
        exact ⟨⟨hy1, (by omega : parseChars ys ≤ 9999), hm1, hm12, hd1, hdim,
          (by decide : (0 : Nat) < 24), (by decide : (0 : Nat) < 60),
          (by decide : (0 : Nat) < 60), rfl⟩, rfl, rfl, rfl, rfl⟩
      · exact absurd h (by simp)
    · exact absurd h (by simp)
  · exact absurd h (by simp)

theorem generalDayfirstParse_valid (s : String) (dt : PyDateTime)
    (h : generalDayfirstParse s = some dt) : ValidDT dt := by
  unfold generalDayfirstParse at h
  split at h
  · rename_i dt' hrfc
    simp only [Option.some.injEq] at h
    subst h
    exact rfc2822Parse_valid _ _ hrfc
  · split at h
    · rename_i ds ms ys heq
      split at h
      · rename_i hfmt
        split at h
        · rename_i hrange
          simp only [Bool.and_eq_true, decide_eq_true_eq, List.all_eq_true] at hfmt hrange
          simp only [Option.some.injEq] at h
          subst h
          obtain ⟨⟨⟨⟨⟨⟨⟨hdd, hmd⟩, hyd⟩, hds1⟩, hds2⟩, hms1⟩, hms2⟩, hys4⟩ := hfmt
          obtain ⟨⟨⟨⟨hy1, hm1⟩, hm12⟩, hd1⟩, hdim⟩ := hrange
          have hylt : parseChars ys < 10 ^ ys.length := parseChars_lt ys hyd
          rw [hys4] at hylt
          exact ⟨hy1, (by omega : parseChars ys ≤ 9999), hm1, hm12, hd1, hdim,
            (by decide : (0 : Nat) < 24), (by decide : (0 : Nat) < 60),
            (by decide : (0 : Nat) < 60), rfl⟩
        · exact absurd h (by simp)
      · exact absurd h (by simp)
    · exact absurd h (by simp)

theorem getD_mem_or {α : Type} (l : List α) (n : Nat) (d : α) :
    l.getD n d ∈ l ∨ l.getD n d = d := by
  rcases Nat.lt_or_ge n l.length with h | h
  · left
    rw [List.getD_eq_getElem l d h]
    exact List.getElem_mem h
  · right
    exact List.getD_eq_default _ _ h

theorem isDigit_char_ok (x : Char) (hx : x.isDigit = true) :
    isIllegalCtrl x = false ∧ x ≠ '.' := by
  have hb := isDigit_toNat_bounds x hx
  constructor
  · unfold isIllegalCtrl
    simp only [Bool.or_eq_false_iff, Bool.and_eq_false_iff, decide_eq_false_iff_not]
    omega
  · intro hdot
    subst hdot
    simp at hb

theorem fmtChar_facts (dt : PyDateTime) :
    ∀ c ∈ formatDatetimeChars dt, isIllegalCtrl c = false ∧ c ≠ '.' := by
  have hall_day : ∀ s ∈ dayNamesTable, ∀ c ∈ s.data,
      isIllegalCtrl c = false ∧ c ≠ '.' := by decide
  have hall_mon : ∀ s ∈ monthNamesTable, ∀ c ∈ s.data,
      isIllegalCtrl c = false ∧ c ≠ '.' := by decide
  have hday : ∀ c ∈ (dayNamesTable.getD
      (weekdayOf dt.year dt.month dt.day) "Mon").data,
      isIllegalCtrl c = false ∧ c ≠ '.' := by
    rcases getD_mem_or dayNamesTable (weekdayOf dt.year dt.month dt.day) "Mon" with hm | hm
    · exact hall_day _ hm
    · rw [hm]; decide
  have hmon : ∀ c ∈ (monthNamesTable.getD (dt.month - 1) "Jan").data,
      isIllegalCtrl c = false ∧ c ≠ '.' := by
    rcases getD_mem_or monthNamesTable (dt.month - 1) "Jan" with hm | hm
    · exact hall_mon _ hm
    · rw [hm]; decide
  have htzf : ∀ c ∈ tzChars dt.tz, isIllegalCtrl c = false ∧ c ≠ '.' := by
    cases dt.tz with
    | none => decide
    | some off =>
      intro c hc
      unfold tzChars at hc
      simp only [List.mem_cons, List.mem_append] at hc
      rcases hc with hc | hc | hc
      · subst hc
        by_cases hoff : off < 0
        · simp only [if_pos hoff]; decide
        · simp only [if_neg hoff]; decide
      · exact isDigit_char_ok c (padNum_digits _ _ c hc)
      · exact isDigit_char_ok c (padNum_digits _ _ c hc)
  intro c hc
  unfold formatDatetimeChars at hc
  simp only [List.mem_append, List.mem_cons, List.not_mem_nil, or_false, or_assoc] at hc
  rcases hc with hc|hc|hc|hc|hc|hc|hc|hc|hc|hc|hc|hc|hc|hc|hc|hc <;>
    first
      | exact hday c hc
      | exact hmon c hc
      | exact htzf c hc
      | exact isDigit_char_ok c (padNum_digits _ _ c hc)
      | (subst hc; decide)

theorem matchDot_none (k : List Char → Option (List Char)) (l : List Char)
    (h : ∀ c ∈ l, c ≠ '.') : matchDot k l = none := by
  cases l with
  | nil => rfl
  | cons c t =>
    have hc : c ≠ '.' := h c (by simp)
    unfold matchDot
    split
    · rename_i rest heq
      injection heq with h1 _
      exact absurd h1 hc
    · rfl

theorem matchNum12_dot_none (k : List Char → Option (List Char)) (l : List Char)
    (h : ∀ c ∈ l, c ≠ '.') : matchNum12 (matchDot k) l = none := by
  cases l with
  | nil => rfl
  | cons a t =>
    cases t with
    | nil =>
      have h0 : matchDot k [] = none := rfl
      by_cases ha : a.isDigit
      · simp [matchNum12, ha, h0]
      · simp [matchNum12, ha]
    | cons b t2 =>
      have h1 : matchDot k t2 = none :=
        matchDot_none k t2 (fun x hx => h x (by simp [hx]))
      have h2 : matchDot k (b :: t2) = none :=
        matchDot_none k (b :: t2) (fun x hx => by
          rcases List.mem_cons.mp hx with hx | hx
          · exact h x (by simp [hx])
          · exact h x (by simp [hx]))
      by_cases ha : a.isDigit
      · by_cases hb : b.isDigit
        · simp [matchNum12, ha, hb, h1, h2]
        · simp [matchNum12, ha, hb, h2]
      · simp [matchNum12, ha]

theorem dmyMatchAt_none (l : List Char) (h : ∀ c ∈ l, c ≠ '.') :
    dmyMatchAt l = none :=
  matchNum12_dot_none _ l h

theorem dmySearchList_none (l : List Char) (h : ∀ c ∈ l, c ≠ '.') :
    dmySearchList l = none := by
  induction l with
  | nil => rfl
  | cons c t ih =>
    have h1 : dmyMatchAt (c :: t) = none := dmyMatchAt_none _ h
    unfold dmySearchList
    rw [h1]
    exact ih (fun x hx => h x (by simp [hx]))

theorem formatDatetimeChars_ne_nil (dt : PyDateTime) :
    formatDatetimeChars dt ≠ [] := by
  have hne : (dayNamesTable.getD (weekdayOf dt.year dt.month dt.day) "Mon").data ≠ [] := by
    have hall : ∀ s ∈ dayNamesTable, s.data ≠ [] := by decide
    rcases getD_mem_or dayNamesTable (weekdayOf dt.year dt.month dt.day) "Mon" with hm | hm
    · exact hall _ hm
    · rw [hm]; decide
  have hlen : 0 < (dayNamesTable.getD (weekdayOf dt.year dt.month dt.day) "Mon").data.length :=
    List.length_pos.mpr hne
  intro hc
  have hl := congrArg List.length hc
  simp only [formatDatetimeChars, List.length_append, List.length_nil] at hl
  omega

theorem normalizePubdate_format (dt : PyDateTime) (h : ValidDT dt) :
    normalizePubdate generalDayfirstParse (formatDatetime dt) = formatDatetime dt := by
  have hne : ¬(formatDatetime dt = "") := by
    intro hc
    exact formatDatetimeChars_ne_nil dt (congrArg String.data hc)
  have hnodot : dmySearch (formatDatetime dt) = none := by
    unfold dmySearch
    rw [show (formatDatetime dt).data = formatDatetimeChars dt from rfl,
      dmySearchList_none _ (fun c hc => (fmtChar_facts dt c hc).2)]
    rfl
  have hgp : generalDayfirstParse (formatDatetime dt) = some dt := by
    unfold generalDayfirstParse
    rw [show (formatDatetime dt).data = formatDatetimeChars dt from rfl,
      rfc2822Parse_format dt h]
  unfold normalizePubdate
  rw [if_neg hne, hnodot, hgp]

theorem normalize_output_cases (s : String)
    (h : normalizePubdate generalDayfirstParse s ≠ "") :
    ∃ dt, ValidDT dt ∧
      normalizePubdate generalDayfirstParse s = formatDatetime dt := by
  by_cases hs : s = ""
  · exfalso
    apply h
    rw [hs]
    rfl
  · cases hd : dmySearch s with
    | some m =>
      have he : normalizePubdate generalDayfirstParse s
          = match strptimeDMY m with
            | some dt => formatDatetime dt
            | none => "" := by
        unfold normalizePubdate
        rw [if_neg hs, hd]
      cases hst : strptimeDMY m with
      | some dt =>
        refine ⟨dt, (strptimeDMY_valid m dt hst).1, ?_⟩
        rw [he, hst]
      | none =>
        rw [he, hst] at h
        exact absurd rfl h
    | none =>
      have he : normalizePubdate generalDayfirstParse s
          = match generalDayfirstParse s with
            | some dt => formatDatetime dt
            | none => "" := by
        unfold normalizePubdate
        rw [if_neg hs, hd]
      cases hgp : generalDayfirstParse s with
      | some dt =>
        refine ⟨dt, generalDayfirstParse_valid s dt hgp, ?_⟩
        rw [he, hgp]
      | none =>
        rw [he, hgp] at h
        exact absurd rfl h

/-- A character list shaped like the regex `\d{1,2}\.\d{1,2}\.\d{4}`. -/
def ShapedDMY (m : List Char) : Prop :=
  ∃ ds ms ys, m = ds ++ '.' :: (ms ++ '.' :: ys) ∧
    (∀ c ∈ ds, c.isDigit = true) ∧ (∀ c ∈ ms, c.isDigit = true) ∧
    (∀ c ∈ ys, c.isDigit = true) ∧
    (ds.length = 1 ∨ ds.length = 2) ∧ (ms.length = 1 ∨ ms.length = 2) ∧
    ys.length = 4

/-- An anchored matcher is sound for `P` when every successful match is a
prefix of the input satisfying `P`. -/
def SoundFor (m : List Char → Option (List Char)) (P : List Char → Prop) : Prop :=
  ∀ l r, m l = some r → ∃ rest, l = r ++ rest ∧ P r

theorem matchY4_soundFor :
    SoundFor matchY4 (fun r => (∀ c ∈ r, c.isDigit = true) ∧ r.length = 4) := by
  intro l r h
  unfold matchY4 at h
  split at h
  · rename_i y1 y2 y3 y4 rest
    split at h
    · rename_i hcond
      simp only [Bool.and_eq_true] at hcond
      simp only [Option.some.injEq] at h
      subst h
      refine ⟨rest, by simp, ?_, by simp⟩
      intro c hc
      simp only [List.mem_cons, List.mem_singleton, List.not_mem_nil, or_false] at hc
      rcases hc with rfl | rfl | rfl | rfl
      · exact hcond.1.1.1
      · exact hcond.1.1.2
      · exact hcond.1.2
      · exact hcond.2
    · exact absurd h (by simp)
  · exact absurd h (by simp)

theorem matchDot_soundFor (k : List Char → Option (List Char)) (P : List Char → Prop)
    (hk : SoundFor k P) :
    SoundFor (matchDot k) (fun r => ∃ t, r = '.' :: t ∧ P t) := by
  intro l r h
  unfold matchDot at h
  split at h
  · rename_i rest0
    cases hk0 : k rest0 with
    | none => rw [hk0] at h; exact absurd h (by simp)
    | some t =>
      rw [hk0] at h
      simp only [Option.map_some', Option.some.injEq] at h
      subst h
      obtain ⟨rest, hrest, hP⟩ := hk rest0 t hk0
      exact ⟨rest, by simp [hrest], t, rfl, hP⟩
  · exact absurd h (by simp)

theorem matchNum12_soundFor (k : List Char → Option (List Char)) (P : List Char → Prop)
    (hk : SoundFor k P) :
    SoundFor (matchNum12 k)
      (fun r => ∃ d t, r = d ++ t ∧ (∀ c ∈ d, c.isDigit = true)
        ∧ (d.length = 1 ∨ d.length = 2) ∧ P t) := by
  intro l r h
  unfold matchNum12 at h
  split at h
  · exact absurd h (by simp)
  · rename_i a
    split at h
    · cases hk0 : k [] with
      | none => rw [hk0] at h; exact absurd h (by simp)
      | some t =>
        rename_i ha
        rw [hk0] at h
        simp only [Option.map_some', Option.some.injEq] at h
        subst h
        obtain ⟨rest, hrest, hP⟩ := hk [] t hk0
        have ht : t = [] := by
          cases t with
          | nil => rfl
          | cons x xs => exact absurd hrest (by simp)
        subst ht
        exact ⟨[], by simp, [a], [], by simp, by simpa using ha, by simp, hP⟩
    · exact absurd h (by simp)
  · rename_i a b rest0
    split at h
    · rename_i ha
      split at h
      · rename_i hb
        cases hk0 : k rest0 with
        | some tail =>
          rw [hk0] at h
          simp only [Option.some.injEq] at h
          subst h
          obtain ⟨rest, hrest, hP⟩ := hk rest0 tail hk0
          refine ⟨rest, by simp [hrest], [a, b], tail, by simp, ?_, by simp, hP⟩
          intro c hc
          rcases List.mem_cons.mp hc with rfl | hc
          · exact ha
          · simp only [List.mem_singleton] at hc; subst hc; exact hb
        | none =>
          rw [hk0] at h
          cases hk1 : k (b :: rest0) with
          | none => rw [hk1] at h; exact absurd h (by simp)
          | some t =>
            rw [hk1] at h
            simp only [Option.map_some', Option.some.injEq] at h
            subst h
            obtain ⟨rest, hrest, hP⟩ := hk (b :: rest0) t hk1
            exact ⟨rest, by simp [hrest], [a], t, by simp, by simpa using ha,
              by simp, hP⟩
      · cases hk1 : k (b :: rest0) with
        | none => rw [hk1] at h; exact absurd h (by simp)
        | some t =>
          rename_i ha hb
          rw [hk1] at h
          simp only [Option.map_some', Option.some.injEq] at h
          subst h
          obtain ⟨rest, hrest, hP⟩ := hk (b :: rest0) t hk1
          exact ⟨rest, by simp [hrest], [a], t, by simp, by simpa using ha,
            by simp, hP⟩
    · exact absurd h (by simp)

theorem dmyMatchAt_sound : SoundFor dmyMatchAt ShapedDMY := by
  have h1 := matchDot_soundFor _ _ matchY4_soundFor
  have h2 := matchNum12_soundFor _ _ h1
  have h3 := matchDot_soundFor _ _ h2
  have h4 := matchNum12_soundFor _ _ h3
  intro l r h
  obtain ⟨rest, hl, d1, t1, hr, hd1, hld1, t1', ht1, d2, t2, hsplit, hd2, hld2,
    ys, hys, hysd, hysl⟩ := h4 l r h
  refine ⟨rest, hl, d1, d2, ys, ?_, hd1, hd2, hysd, hld1, hld2, hysl⟩
  rw [hr, ht1, hsplit, hys]

theorem matchY4_complete (ys post : List Char)
    (hd : ∀ c ∈ ys, c.isDigit = true) (hl : ys.length = 4) :
    (matchY4 (ys ++ post)).isSome = true := by
  rcases ys with _ | ⟨y1, t1⟩
  · simp at hl
  rcases t1 with _ | ⟨y2, t2⟩
  · simp at hl
  rcases t2 with _ | ⟨y3, t3⟩
  · simp at hl
  rcases t3 with _ | ⟨y4, t4⟩
  · simp at hl
  have ht4 : t4 = [] := by
    simp only [List.length_cons] at hl
    exact List.length_eq_zero.mp (by omega)
  subst ht4
  have h1 := hd y1 (by simp)
  have h2 := hd y2 (by simp)
  have h3 := hd y3 (by simp)
  have h4 := hd y4 (by simp)
  simp [matchY4, h1, h2, h3, h4]

theorem matchDot_complete (k : List Char → Option (List Char)) (t : List Char)
    (h : (k t).isSome = true) : (matchDot k ('.' :: t)).isSome = true := by
  simp only [matchDot, Option.isSome_map']
  exact h

theorem matchNum12_complete2 (k : List Char → Option (List Char)) (a b : Char)
    (rest : List Char) (ha : a.isDigit = true) (hb : b.isDigit = true)
    (h : (k rest).isSome = true) :
    (matchNum12 k (a :: b :: rest)).isSome = true := by
  obtain ⟨tail, htail⟩ := Option.isSome_iff_exists.mp h
  simp [matchNum12, ha, hb, htail]

theorem matchNum12_complete1 (k : List Char → Option (List Char)) (a : Char)
    (r : List Char) (ha : a.isDigit = true)
    (h : (k ('.' :: r)).isSome = true) :
    (matchNum12 k (a :: '.' :: r)).isSome = true := by
  have hdot : ('.' : Char).isDigit = false := by decide
  simp [matchNum12, ha, hdot, Option.isSome_map']
  exact h

theorem dmyMatchAt_complete (m post : List Char) (h : ShapedDMY m) :
    (dmyMatchAt (m ++ post)).isSome = true := by
  obtain ⟨ds, ms, ys, rfl, hds, hms, hys, hlds, hlms, hlys⟩ := h
  have hinner : (matchDot matchY4 ('.' :: (ys ++ post))).isSome = true :=
    matchDot_complete _ _ (matchY4_complete ys post hys hlys)
  have hmid : (matchNum12 (matchDot matchY4) (ms ++ '.' :: (ys ++ post))).isSome = true := by
    rcases hlms with h1 | h2
    · obtain ⟨m1, rfl⟩ := List.length_eq_one.mp h1
      exact matchNum12_complete1 _ m1 (ys ++ post) (hms m1 (by simp)) hinner
    · obtain ⟨m1, m2, rfl⟩ := List.length_eq_two.mp h2
      exact matchNum12_complete2 _ m1 m2 ('.' :: (ys ++ post))
        (hms m1 (by simp)) (hms m2 (by simp)) hinner
  have hmid2 : (matchDot (matchNum12 (matchDot matchY4))
      ('.' :: (ms ++ '.' :: (ys ++ post)))).isSome = true :=
    matchDot_complete _ _ hmid
  have hshape : (ds ++ '.' :: (ms ++ '.' :: ys)) ++ post
      = ds ++ '.' :: (ms ++ '.' :: (ys ++ post)) := by simp
  unfold dmyMatchAt
  rw [hshape]
  rcases hlds with h1 | h2
  · obtain ⟨d1, rfl⟩ := List.length_eq_one.mp h1
    exact matchNum12_complete1 _ d1 (ms ++ '.' :: (ys ++ post)) (hds d1 (by simp)) hmid2
  · obtain ⟨d1, d2, rfl⟩ := List.length_eq_two.mp h2
    exact matchNum12_complete2 _ d1 d2 ('.' :: (ms ++ '.' :: (ys ++ post)))
      (hds d1 (by simp)) (hds d2 (by simp)) hmid2

theorem ShapedDMY_ne_nil (m : List Char) (h : ShapedDMY m) : m ≠ [] := by
  obtain ⟨ds, ms, ys, rfl, _, _, _, _, _, _⟩ := h
  simp

theorem dmySearchList_sound (l m : List Char) (h : dmySearchList l = some m) :
    (∃ pre post, l = pre ++ m ++ post) ∧ ShapedDMY m := by
  induction l with
  | nil => exact absurd h (by simp [dmySearchList])
  | cons c t ih =>
    unfold dmySearchList at h
    cases hm : dmyMatchAt (c :: t) with
    | some r =>
      rw [hm] at h
      simp only [Option.some.injEq] at h
      obtain ⟨rest, hrest, hP⟩ := dmyMatchAt_sound (c :: t) r hm
      subst h
      exact ⟨⟨[], rest, by simpa using hrest⟩, hP⟩
    | none =>
      rw [hm] at h
      obtain ⟨⟨pre, post, hsplit⟩, hP⟩ := ih h
      exact ⟨⟨c :: pre, post, by simp [hsplit]⟩, hP⟩

theorem dmySearchList_complete (pre m post : List Char) (h : ShapedDMY m) :
    (dmySearchList (pre ++ m ++ post)).isSome = true := by
  induction pre with
  | nil =>
    have hne : m ++ post ≠ [] := by
      intro hc
      exact ShapedDMY_ne_nil m h (List.append_eq_nil.mp hc).1
    rcases hl : m ++ post with _ | ⟨c, t⟩
    · exact absurd hl hne
    · have hmatch : (dmyMatchAt (c :: t)).isSome = true := by
        rw [← hl]
        exact dmyMatchAt_complete m post h
      obtain ⟨r, hr⟩ := Option.isSome_iff_exists.mp hmatch
      simp only [List.nil_append, hl]
      unfold dmySearchList
      rw [hr]
      rfl
  | cons c pt ih =>
    simp only [List.cons_append]
    unfold dmySearchList
    cases hm : dmyMatchAt (c :: (pt ++ m ++ post)) with
    | some r => rfl
    | none => simpa using ih

/-- C2: for every raw date text, a `D.M.YYYY`-shaped substring exists iff
the normalizer's regex search succeeds; when the search yields `m`,
exactly `m` is parsed day-first by `strptime` and all surrounding text is
ignored; when there is no such substring the general day-first parser is
applied to the full text; every parse failure (and the empty text) yields
an empty pubDate. In particular "30.12.2025 - Denetim Hizmetleri"
extracts "30.12.2025", parsed as day 30, month 12, year 2025, and renders
to the RFC-2822 timestamp of that date. -/
theorem C2_date_normalization :
    (dmySearch "30.12.2025 - Denetim Hizmetleri" = some "30.12.2025"
      ∧ strptimeDMY "30.12.2025" = some ⟨2025, 12, 30, 0, 0, 0, none⟩
      ∧ (∀ fb : String → Option PyDateTime,
          normalizePubdate fb "30.12.2025 - Denetim Hizmetleri"
            = "Tue, 30 Dec 2025 00:00:00 -0000")) ∧
    (∀ s : String, (dmySearch s).isSome = true
      ↔ ∃ pre mid post, s.data = pre ++ mid ++ post ∧ ShapedDMY mid) ∧
    (∀ (s m : String) (fb : String → Option PyDateTime),
      dmySearch s = some m →
      normalizePubdate fb s
        = match strptimeDMY m with
          | some dt => formatDatetime dt
          | none => "") ∧
    (∀ (s : String) (fb : String → Option PyDateTime), s ≠ "" →
      dmySearch s = none →
      normalizePubdate fb s
        = match fb s with
          | some dt => formatDatetime dt
          | none => "") ∧
    (∀ fb : String → Option PyDateTime, normalizePubdate fb "" = "") := by
  refine ⟨⟨by decide, by decide, ?_⟩, ?_, ?_, ?_, fun fb => rfl⟩
  · intro fb
    unfold normalizePubdate
    rw [if_neg (by decide),
      show dmySearch "30.12.2025 - Denetim Hizmetleri" = some "30.12.2025" from by decide]
    show (match strptimeDMY "30.12.2025" with
      | some dt => formatDatetime dt
      | none => "") = "Tue, 30 Dec 2025 00:00:00 -0000"
    rw [show strptimeDMY "30.12.2025" = some ⟨2025, 12, 30, 0, 0, 0, none⟩ from by decide]
    decide
  · intro s
    constructor
    · intro h
      obtain ⟨m, hm⟩ := Option.isSome_iff_exists.mp h
      unfold dmySearch at hm
      cases hml : dmySearchList s.data with
      | none => rw [hml] at hm; exact absurd hm (by simp)
      | some ml =>
        obtain ⟨⟨pre, post, hsplit⟩, hP⟩ := dmySearchList_sound _ _ hml
        exact ⟨pre, ml, post, hsplit, hP⟩
    · rintro ⟨pre, mid, post, hsplit, hP⟩
      unfold dmySearch
      rw [Option.isSome_map']
      rw [hsplit]
      exact dmySearchList_complete pre mid post hP
  · intro s m fb hsome
    have hs : s ≠ "" := by
      intro hc
      subst hc
      rw [show dmySearch "" = none from rfl] at hsome
      exact absurd hsome (by simp)
    unfold normalizePubdate
    rw [if_neg hs, hsome]
  · intro s fb hs hnone
    unfold normalizePubdate
    rw [if_neg hs, hnone]

theorem C2_witness :
    normalizePubdate (fun _ => none) "Yayın tarihi: 5.1.2024, Kurum"
      = "Fri, 05 Jan 2024 00:00:00 -0000" := by
  have h := C2_date_normalization.2.2.1 "Yayın tarihi: 5.1.2024, Kurum" "5.1.2024"
    (fun _ => none) (by decide)
  rw [h]
  decide

/-- C5: the Text Sanitizer's output contains no character in the ranges
U+0000-U+0008, U+000B, U+000C, U+000E-U+001F, and every other character
of the input (tab, LF and CR included) is preserved in its original
order: the output is exactly the input filtered to the legal characters. -/
theorem C5_text_sanitizer (s : String) :
    (∀ c ∈ (clean_xml_string s).data,
      ¬(c.toNat ≤ 0x8 ∨ c.toNat = 0xB ∨ c.toNat = 0xC
        ∨ (0xE ≤ c.toNat ∧ c.toNat ≤ 0x1F))) ∧
    (clean_xml_string s).data = s.data.filter (fun c =>
      decide (¬(c.toNat ≤ 0x8 ∨ c.toNat = 0xB ∨ c.toNat = 0xC
        ∨ (0xE ≤ c.toNat ∧ c.toNat ≤ 0x1F)))) := by
  have hpred : ∀ c : Char, (!(isIllegalCtrl c))
      = decide (¬(c.toNat ≤ 0x8 ∨ c.toNat = 0xB ∨ c.toNat = 0xC
        ∨ (0xE ≤ c.toNat ∧ c.toNat ≤ 0x1F))) := by
    intro c
    unfold isIllegalCtrl
    by_cases h : c.toNat ≤ 0x8 ∨ c.toNat = 0xB ∨ c.toNat = 0xC
        ∨ (0xE ≤ c.toNat ∧ c.toNat ≤ 0x1F)
    · simp only [decide_not]
      rcases h with h | h | h | h <;> simp_all
    · simp only [decide_not]
      push_neg at h
      obtain ⟨h1, h2, h3, h4⟩ := h
      have e1 : decide (c.toNat ≤ 8) = false := by simpa using h1
      have e2 : decide (c.toNat = 11) = false := by simpa using h2
      have e3 : decide (c.toNat = 12) = false := by simpa using h3
      have e4 : (decide (14 ≤ c.toNat) && decide (c.toNat ≤ 31)) = false := by
        by_cases hc : 14 ≤ c.toNat
        · have := h4 hc
          simp [hc, this]
        · simp [hc]
      simp only [e1, e2, e3, e4, Bool.or_false, Bool.not_false]
      have : (c.toNat ≤ 8 ∨ c.toNat = 11 ∨ c.toNat = 12
          ∨ (14 ≤ c.toNat ∧ c.toNat ≤ 31)) = False := by
        simp only [eq_iff_iff, iff_false]
        push_neg
        exact ⟨h1, h2, h3, h4⟩
      simp [this]
  have hdata : (clean_xml_string s).data
      = s.data.filter (fun c => !(isIllegalCtrl c)) := by
    unfold clean_xml_string
    by_cases hs : s = ""
    · subst hs
      rfl
    · rw [if_neg hs]
  constructor
  · intro c hc
    rw [hdata] at hc
    have := (List.mem_filter.mp hc).2
    simp only [Bool.not_eq_true'] at this
    unfold isIllegalCtrl at this
    simp only [Bool.or_eq_false_iff, Bool.and_eq_false_iff,
      decide_eq_false_iff_not] at this
    obtain ⟨⟨⟨h1, h2⟩, h3⟩, h4⟩ := this
    rcases h4 with h4 | h4 <;> omega
  · rw [hdata]
    exact List.filter_congr (fun a _ => hpred a)

/-- C9: the Date Normalizer (with its general day-first fallback parser,
spec-modelled as `generalDayfirstParse`) is idempotent on its own output:
whenever it produces a non-empty RFC-2822 timestamp, re-normalizing that
timestamp yields the identical string (and, the normalizer being a total
function, never raises). -/
theorem C9_normalizer_idempotent (s : String)
    (h : normalizePubdate generalDayfirstParse s ≠ "") :
    normalizePubdate generalDayfirstParse (normalizePubdate generalDayfirstParse s)
      = normalizePubdate generalDayfirstParse s := by
  obtain ⟨dt, hv, heq⟩ := normalize_output_cases s h
  rw [heq, normalizePubdate_format dt hv]

theorem C9_witness :
    normalizePubdate generalDayfirstParse "30.12.2025 - Denetim Hizmetleri" ≠ ""
    ∧ normalizePubdate generalDayfirstParse
        (normalizePubdate generalDayfirstParse "30.12.2025 - Denetim Hizmetleri")
      = normalizePubdate generalDayfirstParse "30.12.2025 - Denetim Hizmetleri" :=
  ⟨by decide, C9_normalizer_idempotent "30.12.2025 - Denetim Hizmetleri" (by decide)⟩

theorem findLinksAux_eq (base : String) (t : List String) :
    ∀ seen, findLinksAux base t seen
      = dedupAux (t.filterMap (hrefCandidate base)) seen := by
  induction t with
  | nil => intro seen; rfl
  | cons h tl ih =>
    intro seen
    by_cases ha : acceptHref (pyStrip h) (urljoinM base (pyStrip h))
    · have hcand : hrefCandidate base h = some (urljoinM base (pyStrip h)) := by
        unfold hrefCandidate
        rw [if_pos ha]
      by_cases hc : seen.contains (urljoinM base (pyStrip h))
      · simp only [findLinksAux, if_pos hc, List.filterMap_cons, hcand, dedupAux, ih]
      · simp only [findLinksAux, if_neg hc, if_pos ha, List.filterMap_cons, hcand,
          dedupAux, ih]
    · have hcand : hrefCandidate base h = none := by
        unfold hrefCandidate
        rw [if_neg ha]
      by_cases hc : seen.contains (urljoinM base (pyStrip h))
      · simp only [findLinksAux, if_pos hc, List.filterMap_cons, hcand, ih]
      · simp only [findLinksAux, if_neg hc, if_neg ha, List.filterMap_cons, hcand, ih]

theorem dedupAux_spec (l : List String) :
    ∀ seen, (dedupAux l seen).Nodup ∧ (∀ x ∈ dedupAux l seen, ¬x ∈ seen)
      ∧ (∀ x, x ∈ dedupAux l seen ↔ x ∈ l ∧ ¬x ∈ seen) := by
  induction l with
  | nil => intro seen; exact ⟨List.nodup_nil, by simp [dedupAux], by simp [dedupAux]⟩
  | cons a t ih =>
    intro seen
    by_cases hmem : a ∈ seen
    · have hred : dedupAux (a :: t) seen = dedupAux t seen := by
        simp [dedupAux, hmem]
      obtain ⟨ih1, ih2, ih3⟩ := ih seen
      refine ⟨hred ▸ ih1, ?_, ?_⟩
      · intro x hx
        rw [hred] at hx
        exact ih2 x hx
      · intro x
        rw [hred, ih3 x]
        constructor
        · rintro ⟨hxt, hxs⟩
          exact ⟨by simp [hxt], hxs⟩
        · rintro ⟨hxat, hxs⟩
          rcases List.mem_cons.mp hxat with rfl | hxt
          · exact absurd hmem hxs
          · exact ⟨hxt, hxs⟩
    · have hred : dedupAux (a :: t) seen = a :: dedupAux t (a :: seen) := by
        simp [dedupAux, hmem]
      obtain ⟨ih1, ih2, ih3⟩ := ih (a :: seen)
      refine ⟨?_, ?_, ?_⟩
      · rw [hred]
        refine List.Nodup.cons ?_ ih1
        intro hx
        exact ih2 a hx (by simp)
      · intro x hx
        rw [hred] at hx
        rcases List.mem_cons.mp hx with rfl | hx
        · exact hmem
        · intro hxs
          exact ih2 x hx (by simp [hxs])
      · intro x
        rw [hred]
        constructor
        · intro hx
          rcases List.mem_cons.mp hx with rfl | hx
          · exact ⟨by simp, hmem⟩
          · have := (ih3 x).mp hx
            exact ⟨by simp [this.1], fun hs => this.2 (by simp [hs])⟩
        · rintro ⟨hxat, hxs⟩
          rcases List.mem_cons.mp hxat with rfl | hxt
          · simp
          · by_cases hxa : x = a
            · simp [hxa]
            · right
              refine (ih3 x).mpr ⟨hxt, ?_⟩
              intro hx
              rcases List.mem_cons.mp hx with h1 | h1
              · exact hxa h1
              · exact hxs h1

/-- C1: for every listing page (given as its anchor hrefs in document
order) and base URL, the Link Extractor returns exactly the accepted
hrefs' resolved URLs — those whose href mentions the announcement marker
and is not pagination, a script pseudo-URL, a fragment-only anchor or the
bare listing root — resolved, in document order, deduplicated by resolved
URL keeping the first occurrence; in particular the listing with links
`/duyuru/foo-123`, `/duyuru?page=2`, `/duyuru/` and `#top` yields exactly
the single resolved `/duyuru/foo-123` URL. -/
theorem C1_link_extractor :
    (∀ (hrefs : List String) (base : String),
      find_announcement_links hrefs base
          = dedupFirst (hrefs.filterMap (hrefCandidate base))
        ∧ (find_announcement_links hrefs base).Nodup
        ∧ (∀ u, u ∈ find_announcement_links hrefs base
            ↔ ∃ h ∈ hrefs, hrefCandidate base h = some u)) ∧
    find_announcement_links ["/duyuru/foo-123", "/duyuru?page=2", "/duyuru/", "#top"]
        "https://titck.gov.tr"
      = ["https://titck.gov.tr/duyuru/foo-123"] := by
  refine ⟨fun hrefs base => ?_, by decide⟩
  have heq : find_announcement_links hrefs base
      = dedupAux (hrefs.filterMap (hrefCandidate base)) [] :=
    findLinksAux_eq base hrefs []
  obtain ⟨h1, _, h3⟩ := dedupAux_spec (hrefs.filterMap (hrefCandidate base)) []
  refine ⟨heq, heq ▸ h1, ?_⟩
  intro u
  rw [heq]
  rw [h3 u]
  simp [List.mem_filterMap]

/-- C6: a discovered link whose URL path (lowercased) ends in one of the
fixed binary extensions is synthesized directly — the Page Extractor (and
the fetch) are never invoked, which the embedding expresses as the
outcome being independent of the fetch and extractor-fallback
collaborators — with title `Dosya: ` + basename, an HTML anchor fragment
description pointing at the link, and the current timestamp as pubDate. -/
theorem C6_binary_shortcut (link : String) (fetch fetch' : String → Option HNode)
    (fb fb' : String → Option PyDateTime) (now : PyDateTime)
    (h : isBinaryLink link = true) :
    processLink fetch fb now link = some (binaryRecord link now)
    ∧ processLink fetch fb now link = processLink fetch' fb' now link
    ∧ (binaryRecord link now).title = "Dosya: " ++ basenameOf link
    ∧ (binaryRecord link now).description
        = "Bu duyuru bir dosya bağlantısıdır: <a href='" ++ link ++ "'>"
          ++ basenameOf link ++ "</a>"
    ∧ (binaryRecord link now).pubDate = formatDatetime now := by
  refine ⟨?_, ?_, rfl, rfl, rfl⟩
  · unfold processLink
    rw [if_pos h]
  · unfold processLink
    rw [if_pos h, if_pos h]

theorem C6_witness :
    isBinaryLink "https://titck.gov.tr/duyuru/rapor.pdf" = true
    ∧ processLink (fun _ => none) (fun _ => none) ⟨2025, 1, 1, 0, 0, 0, some 0⟩
        "https://titck.gov.tr/duyuru/rapor.pdf"
      = some (binaryRecord "https://titck.gov.tr/duyuru/rapor.pdf"
          ⟨2025, 1, 1, 0, 0, 0, some 0⟩)
    ∧ (binaryRecord "https://titck.gov.tr/duyuru/rapor.pdf"
        ⟨2025, 1, 1, 0, 0, 0, some 0⟩).title = "Dosya: rapor.pdf" :=
  ⟨by decide,
   (C6_binary_shortcut "https://titck.gov.tr/duyuru/rapor.pdf" (fun _ => none)
     (fun _ => none) (fun _ => none) (fun _ => none) ⟨2025, 1, 1, 0, 0, 0, some 0⟩
     (by decide)).1,
   by decide⟩

/-- C8: when the Link Extractor finds no links on the fetched listing
page, the run terminates with exit status 1 and no feed is built — the
outcome is `Except.error 1`, not an `Except.ok` feed string. -/
theorem C8_empty_links_fatal (anchors : List String) (url : String) (maxItems : Nat)
    (fetch : String → Option HNode) (fb : String → Option PyDateTime)
    (now : PyDateTime)
    (h : find_announcement_links anchors (schemeHostOf url) = []) :
    runMain (some anchors) url maxItems fetch fb now = Except.error 1 := by
  unfold runMain
  simp [h]

theorem C8_witness :
    find_announcement_links ["#top"] (schemeHostOf DEFAULT_URL) = []
    ∧ runMain (some ["#top"]) DEFAULT_URL 30 (fun _ => none) (fun _ => none)
        ⟨2025, 1, 1, 0, 0, 0, some 0⟩ = Except.error 1 :=
  ⟨by decide,
   C8_empty_links_fatal ["#top"] DEFAULT_URL 30 (fun _ => none) (fun _ => none)
     ⟨2025, 1, 1, 0, 0, 0, some 0⟩ (by decide)⟩

/-- C10: the Page Extractor is deterministic — `extract_from_announcement`
is a pure function of the HTML and the page URL, so the processing of a
non-binary link depends only on the fetched page, never on the clock
parameter `now`; by contrast the binary-file shortcut's record carries
`formatDatetime now`, the wall-clock time of the invocation. -/
theorem C10_extractor_deterministic (link : String)
    (fetch fetch' : String → Option HNode) (fb : String → Option PyDateTime)
    (now now' : PyDateTime) :
    (isBinaryLink link = false → fetch link = fetch' link →
      processLink fetch fb now link = processLink fetch' fb now' link)
    ∧ (isBinaryLink link = true →
      processLink fetch fb now link = some (binaryRecord link now)
      ∧ (binaryRecord link now).pubDate = formatDatetime now) := by
  constructor
  · intro h hf
    unfold processLink
    rw [if_neg (by simp [h]), if_neg (by simp [h]), hf]
  · intro h
    refine ⟨?_, rfl⟩
    unfold processLink
    rw [if_pos h]

theorem C10_witness :
    isBinaryLink "https://titck.gov.tr/duyuru/foo-123" = false
    ∧ processLink (fun _ => none) (fun _ => none) ⟨2025, 1, 1, 0, 0, 0, some 0⟩
        "https://titck.gov.tr/duyuru/foo-123"
      = processLink (fun _ => none) (fun _ => none) ⟨2026, 2, 2, 1, 2, 3, none⟩
        "https://titck.gov.tr/duyuru/foo-123" :=
  ⟨by decide,
   (C10_extractor_deterministic "https://titck.gov.tr/duyuru/foo-123"
     (fun _ => none) (fun _ => none) (fun _ => none)
     ⟨2025, 1, 1, 0, 0, 0, some 0⟩ ⟨2026, 2, 2, 1, 2, 3, none⟩).1 (by decide) rfl⟩

/-- C7: the Page Extractor is a total function of the parsed page and its
URL — every fallible step is handled internally, so a record is always
returned: a missed title chain yields the fixed placeholder, a missed
date chain yields an empty pubDate (as does any date-parse failure in
either the `strptime` or the general-parser branch), a missed content
chain falls back to the document body or the whole document, and the link
is the page's own URL. -/
theorem C7_extractor_total_fallbacks (root : HNode) (url : String)
    (fb : String → Option PyDateTime) :
    (extract_from_announcement root url fb).link = url
    ∧ (titleCand root = none →
        (extract_from_announcement root url fb).title = "Başlıksız duyuru")
    ∧ (rawDate root = "" → (extract_from_announcement root url fb).pubDate = "")
    ∧ ((contentSel root).isNone = true →
        (extract_from_announcement root url fb).description
          = descriptionOf (bodyOr root))
    ∧ (∀ m, dmySearch (rawDate root) = some m → strptimeDMY m = none →
        (extract_from_announcement root url fb).pubDate = "")
    ∧ (dmySearch (rawDate root) = none → fb (rawDate root) = none →
        (extract_from_announcement root url fb).pubDate = "") := by
  refine ⟨rfl, ?_, ?_, ?_, ?_, ?_⟩
  · intro h
    show clean_xml_string (rawTitle root) = _
    unfold rawTitle
    rw [h]
    decide
  · intro h
    show normalizePubdate fb (rawDate root) = ""
    rw [h]
    rfl
  · intro h
    show descriptionOf ((contentSel root).getD (bodyOr root)) = _
    rw [Option.isNone_iff_eq_none.mp h]
    rfl
  · intro m hm hst
    show normalizePubdate fb (rawDate root) = ""
    unfold normalizePubdate
    by_cases hs : rawDate root = ""
    · rw [if_pos hs]
    · rw [if_neg hs, hm]
      show (match strptimeDMY m with
        | some dt => formatDatetime dt
        | none => "") = ""
      rw [hst]
  · intro hm hfb
    show normalizePubdate fb (rawDate root) = ""
    unfold normalizePubdate
    by_cases hs : rawDate root = ""
    · rw [if_pos hs]
    · rw [if_neg hs, hm]
      show (match fb (rawDate root) with
        | some dt => formatDatetime dt
        | none => "") = ""
      rw [hfb]

theorem C7_witness :
    titleCand (HNode.elem "[document]" [] []) = none
    ∧ rawDate (HNode.elem "[document]" [] []) = ""
    ∧ (contentSel (HNode.elem "[document]" [] [])).isNone = true
    ∧ extract_from_announcement (HNode.elem "[document]" [] []) "u" (fun _ => none)
      = { title := "Başlıksız duyuru", link := "u", description := "", pubDate := "" } :=
  ⟨by decide, by decide, by decide, by
    have h := C7_extractor_total_fallbacks (HNode.elem "[document]" [] []) "u"
      (fun _ => none)
    have h1 := h.2.1 (by decide)
    have h2 := h.2.2.1 (by decide)
    have h3 := h.2.2.2.1 (by decide)
    have h4 : (extract_from_announcement (HNode.elem "[document]" [] []) "u"
        (fun _ => none)).description = "" := by
      rw [h3]
      decide
    have heta : extract_from_announcement (HNode.elem "[document]" [] []) "u"
        (fun _ => none)
        = ⟨(extract_from_announcement (HNode.elem "[document]" [] []) "u"
              (fun _ => none)).title,
           (extract_from_announcement (HNode.elem "[document]" [] []) "u"
              (fun _ => none)).link,
           (extract_from_announcement (HNode.elem "[document]" [] []) "u"
              (fun _ => none)).description,
           (extract_from_announcement (HNode.elem "[document]" [] []) "u"
              (fun _ => none)).pubDate⟩ := rfl
    rw [heta, h.1, h1, h2, h4]⟩

/-- Boolean check that a string is free of XML-illegal control
characters. -/
def cleanStrB (s : String) : Bool := s.data.all (fun c => !(isIllegalCtrl c))

theorem clean_xml_string_clean (s : String) :
    ∀ c ∈ (clean_xml_string s).data, isIllegalCtrl c = false := by
  intro c hc
  unfold clean_xml_string at hc
  by_cases hs : s = ""
  · rw [if_pos hs] at hc
    simp at hc
  · rw [if_neg hs] at hc
    have := (List.mem_filter.mp hc).2
    simpa using this

theorem normalizePubdate_clean (fb : String → Option PyDateTime) (s : String) :
    ∀ c ∈ (normalizePubdate fb s).data, isIllegalCtrl c = false := by
  intro c hc
  unfold normalizePubdate at hc
  split at hc
  · simp at hc
  · split at hc
    · split at hc
      · exact (fmtChar_facts _ c hc).1
      · simp at hc
    · split at hc
      · exact (fmtChar_facts _ c hc).1
      · simp at hc

theorem escapeTextChar_clean (x c : Char) (hx : isIllegalCtrl x = false)
    (hc : c ∈ escapeTextChar x) : isIllegalCtrl c = false := by
  unfold escapeTextChar at hc
  split at hc
  · have hall : ∀ x ∈ "&amp;".data, isIllegalCtrl x = false := by decide
    exact hall c hc
  · split at hc
    · have hall : ∀ x ∈ "&lt;".data, isIllegalCtrl x = false := by decide
      exact hall c hc
    · split at hc
      · have hall : ∀ x ∈ "&gt;".data, isIllegalCtrl x = false := by decide
        exact hall c hc
      · simp only [List.mem_singleton] at hc
        subst hc
        exact hx

theorem escapeText_clean (l : List Char) (h : ∀ c ∈ l, isIllegalCtrl c = false) :
    ∀ c ∈ escapeText l, isIllegalCtrl c = false := by
  intro c hc
  unfold escapeText at hc
  simp only [List.mem_flatten, List.mem_map] at hc
  obtain ⟨a, ⟨x, hxl, hxa⟩, hca⟩ := hc
  subst hxa
  exact escapeTextChar_clean x c (h x hxl) hca

theorem serializeListXml_append (l1 l2 : List XNode) :
    serializeListXml (l1 ++ l2) = serializeListXml l1 ++ serializeListXml l2 := by
  induction l1 with
  | nil => rfl
  | cons x t ih =>
    show serializeXml x ++ serializeListXml (t ++ l2) = _
    rw [ih, serializeListXml, List.append_assoc]

theorem serialize_textElem_clean (tg : String) (s : String)
    (htg : ∀ c ∈ tg.data, isIllegalCtrl c = false)
    (hs : ∀ c ∈ s.data, isIllegalCtrl c = false) :
    ∀ c ∈ serializeXml (XNode.elem tg [] [XNode.text s]), isIllegalCtrl c = false := by
  intro c hc
  have hred : serializeXml (XNode.elem tg [] [XNode.text s])
      = '<' :: (tg.data ++ '>' :: (escapeText s.data
        ++ '<' :: '/' :: (tg.data ++ ['>']))) := by
    show '<' :: (tg.data ++ renderAttrs [] ++ '>' :: ((serializeXml (XNode.text s)
        ++ serializeListXml []) ++ '<' :: '/' :: (tg.data ++ ['>']))) = _
    simp [renderAttrs, serializeListXml, serializeXml]
  rw [hred] at hc
  simp only [List.mem_cons, List.mem_append, List.mem_singleton] at hc
  rcases hc with rfl | hc | hc
  · decide
  · exact htg c hc
  · rcases hc with rfl | hc
    · decide
    · rcases hc with hc | hc
      · exact escapeText_clean s.data hs c hc
      · rcases hc with rfl | hc
        · decide
        · rcases hc with rfl | hc
          · decide
          · rcases hc with hc | hc
            · exact htg c hc
            · rcases hc with rfl | hc
              · decide
              · simp at hc

/-- C3 (amended): records built by the Page Extractor always carry a
title, description and pubDate free of XML-illegal control characters
(they pass through `clean_xml_string` or are generated timestamps), and
the title is non-empty whenever the raw extracted title has at least one
legal character; the binary-file shortcut always synthesizes a non-empty
title and a legal pubDate. The `link` field, and the binary record's
title and description, are passed through unsanitized, so they contain
illegal characters exactly when the accepted link does (see the
counterexample). -/
theorem C3_record_sanitization_amended (root : HNode) (url : String)
    (fb : String → Option PyDateTime) (link : String) (now : PyDateTime) :
    (∀ c ∈ (extract_from_announcement root url fb).title.data,
      isIllegalCtrl c = false)
    ∧ (∀ c ∈ (extract_from_announcement root url fb).description.data,
      isIllegalCtrl c = false)
    ∧ (∀ c ∈ (extract_from_announcement root url fb).pubDate.data,
      isIllegalCtrl c = false)
    ∧ ((∃ c ∈ (rawTitle root).data, isIllegalCtrl c = false) →
        (extract_from_announcement root url fb).title ≠ "")
    ∧ (extract_from_announcement root url fb).link = url
    ∧ (binaryRecord link now).title ≠ ""
    ∧ (∀ c ∈ (binaryRecord link now).pubDate.data, isIllegalCtrl c = false) := by
  refine ⟨clean_xml_string_clean _, clean_xml_string_clean _,
    normalizePubdate_clean _ _, ?_, rfl, ?_, fun c hc => (fmtChar_facts now c hc).1⟩
  · rintro ⟨c, hc, hlegal⟩ hcontra
    have hraw : rawTitle root ≠ "" := by
      intro hr
      rw [hr] at hc
      simp at hc
    have hdata : (clean_xml_string (rawTitle root)).data
        = (rawTitle root).data.filter (fun c => !(isIllegalCtrl c)) := by
      unfold clean_xml_string
      rw [if_neg hraw]
    have hmem : c ∈ (clean_xml_string (rawTitle root)).data := by
      rw [hdata]
      exact List.mem_filter.mpr ⟨hc, by simp [hlegal]⟩
    have : (extract_from_announcement root url fb).title
        = clean_xml_string (rawTitle root) := rfl
    rw [this] at hcontra
    rw [hcontra] at hmem
    simp at hmem
  · intro hcontra
    have h1 : ("Dosya: " ++ basenameOf link) = "" := hcontra
    have h2 := congrArg (fun s : String => s.data.length) h1
    have h3 : ("Dosya: " ++ basenameOf link).data
        = "Dosya: ".data ++ (basenameOf link).data := rfl
    simp only [h3, List.length_append] at h2
    simp at h2

theorem C3_witness :
    (∃ c ∈ (rawTitle (HNode.elem "[document]" []
        [HNode.elem "h1" [] [HNode.text "Hello"]])).data, isIllegalCtrl c = false)
    ∧ (extract_from_announcement (HNode.elem "[document]" []
        [HNode.elem "h1" [] [HNode.text "Hello"]]) "https://x" (fun _ => none)).title ≠ "" :=
  ⟨by decide,
   (C3_record_sanitization_amended (HNode.elem "[document]" []
       [HNode.elem "h1" [] [HNode.text "Hello"]]) "https://x" (fun _ => none)
       "https://x/a.pdf" ⟨2025, 1, 1, 0, 0, 0, some 0⟩).2.2.2.1 (by decide)⟩

theorem C3_counterexample :
    find_announcement_links ["/duyuru/a\u0001b.pdf"] "https://titck.gov.tr"
      = ["https://titck.gov.tr/duyuru/a\u0001b.pdf"]
    ∧ processLink (fun _ => none) (fun _ => none) ⟨2025, 1, 1, 0, 0, 0, some 0⟩
        "https://titck.gov.tr/duyuru/a\u0001b.pdf"
      = some (binaryRecord "https://titck.gov.tr/duyuru/a\u0001b.pdf"
          ⟨2025, 1, 1, 0, 0, 0, some 0⟩)
    ∧ '\u0001' ∈ (binaryRecord "https://titck.gov.tr/duyuru/a\u0001b.pdf"
        ⟨2025, 1, 1, 0, 0, 0, some 0⟩).title.data
    ∧ isIllegalCtrl '\u0001' = true
    ∧ (extract_from_announcement (HNode.elem "[document]" []
        [HNode.elem "h1" [] [HNode.text "\u0001"]]) "https://x" (fun _ => none)).title
      = "" := by
  refine ⟨by decide, by decide, by decide, by decide, by decide⟩

theorem serializeListXml_clean (l : List XNode)
    (h : ∀ x ∈ l, ∀ c ∈ serializeXml x, isIllegalCtrl c = false) :
    ∀ c ∈ serializeListXml l, isIllegalCtrl c = false := by
  induction l with
  | nil => intro c hc; simp [serializeListXml] at hc
  | cons x t ih =>
    intro c hc
    rw [show serializeListXml (x :: t) = serializeXml x ++ serializeListXml t from rfl] at hc
    rcases List.mem_append.mp hc with hc | hc
    · exact h x (by simp) c hc
    · exact ih (fun y hy => h y (by simp [hy])) c hc

theorem serialize_itemElem_clean (r : AnnRecord)
    (ht : ∀ c ∈ r.title.data, isIllegalCtrl c = false)
    (hl : ∀ c ∈ r.link.data, isIllegalCtrl c = false)
    (hd : ∀ c ∈ r.description.data, isIllegalCtrl c = false)
    (hp : ∀ c ∈ r.pubDate.data, isIllegalCtrl c = false) :
    ∀ c ∈ serializeXml (itemElem r), isIllegalCtrl c = false := by
  have hitemtag : ∀ c ∈ "item".data, isIllegalCtrl c = false := by decide
  have hchildren : ∀ x ∈ ([XNode.elem "title" [] [XNode.text r.title],
      XNode.elem "link" [] [XNode.text r.link],
      XNode.elem "guid" [] [XNode.text r.link]]
      ++ (if r.pubDate != "" then [XNode.elem "pubDate" [] [XNode.text r.pubDate]] else [])
      ++ [XNode.elem "description" [] [XNode.text r.description]]),
      ∀ c ∈ serializeXml x, isIllegalCtrl c = false := by
    intro x hx
    simp only [List.mem_append, List.mem_cons, List.not_mem_nil, or_false] at hx
    rcases hx with ((rfl | rfl | rfl) | hx) | rfl
    · exact serialize_textElem_clean _ _ (by decide) ht
    · exact serialize_textElem_clean _ _ (by decide) hl
    · exact serialize_textElem_clean _ _ (by decide) hl
    · by_cases hpd : r.pubDate != ""
      · rw [if_pos hpd] at hx
        simp only [List.mem_singleton] at hx
        subst hx
        exact serialize_textElem_clean _ _ (by decide) hp
      · rw [if_neg hpd] at hx
        simp at hx
    · exact serialize_textElem_clean _ _ (by decide) hd
  intro c hc
  rw [show serializeXml (itemElem r) = '<' :: ("item".data ++ renderAttrs []
      ++ '>' :: (serializeListXml ([XNode.elem "title" [] [XNode.text r.title],
        XNode.elem "link" [] [XNode.text r.link],
        XNode.elem "guid" [] [XNode.text r.link]]
        ++ (if r.pubDate != "" then [XNode.elem "pubDate" [] [XNode.text r.pubDate]] else [])
        ++ [XNode.elem "description" [] [XNode.text r.description]])
        ++ '<' :: '/' :: ("item".data ++ ['>']))) from rfl] at hc
  simp only [renderAttrs, List.append_nil] at hc
  rcases List.mem_cons.mp hc with rfl | hc
  · decide
  rcases List.mem_append.mp hc with hc | hc
  · exact hitemtag c hc
  rcases List.mem_cons.mp hc with rfl | hc
  · decide
  rcases List.mem_append.mp hc with hc | hc
  · exact serializeListXml_clean _ hchildren c hc
  rcases List.mem_cons.mp hc with rfl | hc
  · decide
  rcases List.mem_cons.mp hc with rfl | hc
  · decide
  rcases List.mem_append.mp hc with hc | hc
  · exact hitemtag c hc
  rcases List.mem_cons.mp hc with rfl | hc
  · decide
  simp at hc

theorem serialize_channel_clean (ct cl cd : String) (items : List AnnRecord)
    (now : PyDateTime)
    (hct : ∀ c ∈ ct.data, isIllegalCtrl c = false)
    (hcl : ∀ c ∈ cl.data, isIllegalCtrl c = false)
    (hcd : ∀ c ∈ cd.data, isIllegalCtrl c = false)
    (hitems : ∀ r ∈ items, (∀ c ∈ r.title.data, isIllegalCtrl c = false)
      ∧ (∀ c ∈ r.link.data, isIllegalCtrl c = false)
      ∧ (∀ c ∈ r.description.data, isIllegalCtrl c = false)
      ∧ (∀ c ∈ r.pubDate.data, isIllegalCtrl c = false)) :
    ∀ c ∈ serializeXml (XNode.elem "channel" []
      ([XNode.elem "title" [] [XNode.text ct],
        XNode.elem "link" [] [XNode.text cl],
        XNode.elem "description" [] [XNode.text cd],
        XNode.elem "lastBuildDate" [] [XNode.text (formatDatetime now)]]
        ++ items.map itemElem)), isIllegalCtrl c = false := by
  have hchantag : ∀ c ∈ "channel".data, isIllegalCtrl c = false := by decide
  have hchildren : ∀ x ∈ ([XNode.elem "title" [] [XNode.text ct],
      XNode.elem "link" [] [XNode.text cl],
      XNode.elem "description" [] [XNode.text cd],
      XNode.elem "lastBuildDate" [] [XNode.text (formatDatetime now)]]
      ++ items.map itemElem),
      ∀ c ∈ serializeXml x, isIllegalCtrl c = false := by
    intro x hx
    rcases List.mem_append.mp hx with hx | hx
    · simp only [List.mem_cons, List.not_mem_nil, or_false] at hx
      rcases hx with rfl | rfl | rfl | rfl
      · exact serialize_textElem_clean _ _ (by decide) hct
      · exact serialize_textElem_clean _ _ (by decide) hcl
      · exact serialize_textElem_clean _ _ (by decide) hcd
      · exact serialize_textElem_clean _ _ (by decide)
          (fun c hc => (fmtChar_facts now c hc).1)
    · obtain ⟨r, hr, rfl⟩ := List.mem_map.mp hx
      obtain ⟨h1, h2, h3, h4⟩ := hitems r hr
      exact serialize_itemElem_clean r h1 h2 h3 h4
  intro c hc
  rw [show serializeXml (XNode.elem "channel" []
      ([XNode.elem "title" [] [XNode.text ct],
        XNode.elem "link" [] [XNode.text cl],
        XNode.elem "description" [] [XNode.text cd],
        XNode.elem "lastBuildDate" [] [XNode.text (formatDatetime now)]]
        ++ items.map itemElem))
      = '<' :: ("channel".data ++ renderAttrs []
        ++ '>' :: (serializeListXml ([XNode.elem "title" [] [XNode.text ct],
          XNode.elem "link" [] [XNode.text cl],
          XNode.elem "description" [] [XNode.text cd],
          XNode.elem "lastBuildDate" [] [XNode.text (formatDatetime now)]]
          ++ items.map itemElem)
          ++ '<' :: '/' :: ("channel".data ++ ['>']))) from rfl] at hc
  simp only [renderAttrs, List.append_nil] at hc
  rcases List.mem_cons.mp hc with rfl | hc
  · decide
  rcases List.mem_append.mp hc with hc | hc
  · exact hchantag c hc
  rcases List.mem_cons.mp hc with rfl | hc
  · decide
  rcases List.mem_append.mp hc with hc | hc
  · exact serializeListXml_clean _ hchildren c hc
  rcases List.mem_cons.mp hc with rfl | hc
  · decide
  rcases List.mem_cons.mp hc with rfl | hc
  · decide
  rcases List.mem_append.mp hc with hc | hc
  · exact hchantag c hc
  rcases List.mem_cons.mp hc with rfl | hc
  · decide
  simp at hc

theorem serialize_buildRss_clean (ct cl cd : String) (items : List AnnRecord)
    (now : PyDateTime)
    (hct : ∀ c ∈ ct.data, isIllegalCtrl c = false)
    (hcl : ∀ c ∈ cl.data, isIllegalCtrl c = false)
    (hcd : ∀ c ∈ cd.data, isIllegalCtrl c = false)
    (hitems : ∀ r ∈ items, (∀ c ∈ r.title.data, isIllegalCtrl c = false)
      ∧ (∀ c ∈ r.link.data, isIllegalCtrl c = false)
      ∧ (∀ c ∈ r.description.data, isIllegalCtrl c = false)
      ∧ (∀ c ∈ r.pubDate.data, isIllegalCtrl c = false)) :
    ∀ c ∈ serializeXml (build_rss ct cl cd items now), isIllegalCtrl c = false := by
  have hrsstag : ∀ c ∈ "rss".data, isIllegalCtrl c = false := by decide
  have hattrs : ∀ c ∈ renderAttrs [("version", "2.0")], isIllegalCtrl c = false := by decide
  have hchan := serialize_channel_clean ct cl cd items now hct hcl hcd hitems
  intro c hc
  rw [show serializeXml (build_rss ct cl cd items now)
      = '<' :: ("rss".data ++ renderAttrs [("version", "2.0")]
        ++ '>' :: ((serializeXml (XNode.elem "channel" []
            ([XNode.elem "title" [] [XNode.text ct],
              XNode.elem "link" [] [XNode.text cl],
              XNode.elem "description" [] [XNode.text cd],
              XNode.elem "lastBuildDate" [] [XNode.text (formatDatetime now)]]
              ++ items.map itemElem)) ++ serializeListXml [])
          ++ '<' :: '/' :: ("rss".data ++ ['>']))) from rfl] at hc
  simp only [serializeListXml, List.append_nil] at hc
  rcases List.mem_cons.mp hc with rfl | hc
  · decide
  rcases List.mem_append.mp hc with hc | hc
  · rcases List.mem_append.mp hc with hc | hc
    · exact hrsstag c hc
    · exact hattrs c hc
  rcases List.mem_cons.mp hc with rfl | hc
  · decide
  rcases List.mem_append.mp hc with hc | hc
  · exact hchan c hc
  rcases List.mem_cons.mp hc with rfl | hc
  · decide
  rcases List.mem_cons.mp hc with rfl | hc
  · decide
  rcases List.mem_append.mp hc with hc | hc
  · exact hrsstag c hc
  rcases List.mem_cons.mp hc with rfl | hc
  · decide
  simp at hc

/-- C4 (amended): for every channel title, link, description and record
sequence, the Feed Builder produces exactly the claimed element
structure: an `rss` root with `version="2.0"`, one `channel` whose
children are `title`, `link`, `description`, `lastBuildDate` followed by
exactly one `item` per record in input order, each item holding `title`,
`link`, a `guid` whose text equals the link, a `pubDate` element present
iff the record's pubDate is non-empty, then `description`. Provided every
character of the channel fields and record fields is XML-legal (the
guarantee the sanitizer supplies upstream), the serialized document
contains no XML-illegal control character; for records that do contain
such characters the output embeds them verbatim and is not well-formed
(see the counterexample — in the real program `minidom.parseString` then
raises instead of returning a feed). -/
theorem C4_feed_builder_amended (ct cl cd : String) (items : List AnnRecord)
    (now : PyDateTime)
    (hct : cleanStrB ct = true) (hcl : cleanStrB cl = true)
    (hcd : cleanStrB cd = true)
    (hitems : ∀ r ∈ items, cleanStrB r.title = true ∧ cleanStrB r.link = true
      ∧ cleanStrB r.description = true ∧ cleanStrB r.pubDate = true) :
    build_rss ct cl cd items now
      = XNode.elem "rss" [("version", "2.0")]
          [XNode.elem "channel" []
            ([XNode.elem "title" [] [XNode.text ct],
              XNode.elem "link" [] [XNode.text cl],
              XNode.elem "description" [] [XNode.text cd],
              XNode.elem "lastBuildDate" [] [XNode.text (formatDatetime now)]]
              ++ items.map (fun it => XNode.elem "item" []
                  ([XNode.elem "title" [] [XNode.text it.title],
                    XNode.elem "link" [] [XNode.text it.link],
                    XNode.elem "guid" [] [XNode.text it.link]]
                    ++ (if it.pubDate != "" then
                        [XNode.elem "pubDate" [] [XNode.text it.pubDate]]
                      else [])
                    ++ [XNode.elem "description" [] [XNode.text it.description]])))]
    ∧ (serializeXml (build_rss ct cl cd items now)).all
        (fun c => !(isIllegalCtrl c)) = true := by
  constructor
  · rfl
  · rw [List.all_eq_true]
    intro c hc
    have hconv : ∀ (s : String), cleanStrB s = true →
        ∀ x ∈ s.data, isIllegalCtrl x = false := by
      intro s hs x hx
      have := List.all_eq_true.mp hs x hx
      simpa using this
    have hclean := serialize_buildRss_clean ct cl cd items now
      (hconv ct hct) (hconv cl hcl) (hconv cd hcd)
      (fun r hr => ⟨hconv _ (hitems r hr).1, hconv _ (hitems r hr).2.1,
        hconv _ (hitems r hr).2.2.1, hconv _ (hitems r hr).2.2.2⟩) c hc
    simp [hclean]

theorem C4_counterexample :
    '\u0001' ∈ serializeXml (build_rss "t" "l" "d"
        [⟨"\u0001", "x", "", ""⟩] ⟨2025, 1, 1, 0, 0, 0, some 0⟩)
    ∧ isIllegalCtrl '\u0001' = true
    ∧ (serializeXml (build_rss "t" "l" "d" [⟨"\u0001", "x", "", ""⟩]
        ⟨2025, 1, 1, 0, 0, 0, some 0⟩)).all (fun c => !(isIllegalCtrl c)) = false :=
  ⟨by decide, by decide, by decide⟩

theorem C4_witness :
    cleanStrB "TİTCK Duyurular (otomatik)" = true
    ∧ (serializeXml (build_rss "TİTCK Duyurular (otomatik)"
        "https://titck.gov.tr/duyuru?page=1" "d"
        [⟨"a", "https://titck.gov.tr/duyuru/foo", "c", ""⟩]
        ⟨2025, 1, 1, 0, 0, 0, some 0⟩)).all (fun c => !(isIllegalCtrl c)) = true :=
  ⟨by decide,
   (C4_feed_builder_amended "TİTCK Duyurular (otomatik)"
     "https://titck.gov.tr/duyuru?page=1" "d"
     [⟨"a", "https://titck.gov.tr/duyuru/foo", "c", ""⟩]
     ⟨2025, 1, 1, 0, 0, 0, some 0⟩ (by decide) (by decide) (by decide)
     (by decide)).2⟩

theorem C1_witness :
    find_announcement_links ["/duyuru/foo-123", "/duyuru?page=2", "/duyuru/", "#top"]
        "https://titck.gov.tr"
      = ["https://titck.gov.tr/duyuru/foo-123"] :=
  C1_link_extractor.2

theorem C5_witness :
    (clean_xml_string "a\u0001b\tc").data
      = "a\u0001b\tc".data.filter (fun c =>
        decide (¬(c.toNat ≤ 0x8 ∨ c.toNat = 0xB ∨ c.toNat = 0xC
          ∨ (0xE ≤ c.toNat ∧ c.toNat ≤ 0x1F)))) :=
  (C5_text_sanitizer "a\u0001b\tc").2
